import Mathlib

/-!
Verification development for the trading core of a Go spot-exchange
(matching engine, settlement, order lifecycle).

Shallow embedding conventions:

* `shopspring/decimal` values (carried as strings on the Go structs and
  re-parsed at each use) are embedded as `ℚ`.  Every operation the code
  performs on them (`Add`, `Sub`, `Mul`, `Min`, comparisons, `IsZero`) is
  exact decimal arithmetic, and parse/format round-trips, so `ℚ` models
  them faithfully; division is never used.
* Go pointer structs (`*model.Order`) are embedded as values.  Where the
  code mutates a shared pointer (the same `*Order` sits in the book and in
  the result lists), the embedding threads the updated value to every
  holder, which is noted at each such definition.
* The per-symbol order book (`map[string]*PriceLevel` plus a sorted price
  slice) is embedded as a list of price levels sorted in the slice's
  order; the map key is the canonical decimal string of the price, so
  distinct keys correspond exactly to distinct `ℚ` values.
-/

namespace Exchange

/-- `model.Order` (src/model): id, user, symbol, type (1=Limit, 2=Market),
side (1=Buy, 2=Sell), amount, price, filled amount, status
(1=Pending, 2=PartiallyFilled, 3=Filled, 4=Canceled).
`Amount`, `Price`, `FilledAmount` are decimal strings in Go, embedded as `ℚ`
(a market order's empty `Price` string parses to the zero decimal). -/
structure Order where
  id : ℕ
  userId : ℕ
  symbol : String
  otype : ℤ
  side : ℤ
  amount : ℚ
  price : ℚ
  filledAmount : ℚ
  status : ℤ
deriving Repr, DecidableEq

/-- `model.Trade` (src/model/trade.go): the fields the matching engine
fills in `createTrade`. -/
structure Trade where
  symbol : String
  buyOrderId : ℕ
  sellOrderId : ℕ
  buyUserId : ℕ
  sellUserId : ℕ
  price : ℚ
  amount : ℚ
deriving Repr, DecidableEq

/-- `matching.PriceLevel` (src/internal/matching/orderbook.go lines 14-19):
price, FIFO queue of orders (`container/list`), cached total. -/
structure PriceLevel where
  price : ℚ
  orders : List Order
  total : ℚ
deriving Repr, DecidableEq

/-- `NewPriceLevel` (orderbook.go lines 22-28). -/
def newPriceLevel (price : ℚ) : PriceLevel :=
  { price := price, orders := [], total := 0 }

/-- `PriceLevel.AddOrder` (orderbook.go lines 31-35): push to the back of
the FIFO, add the order's amount to the cached total. -/
def PriceLevel.addOrder (pl : PriceLevel) (o : Order) : PriceLevel :=
  { pl with orders := pl.orders ++ [o], total := pl.total + o.amount }

/-- Removes the first order with the given id, as the loop in
`PriceLevel.RemoveOrder` does (it breaks after the first match);
`none` when no order matches (then Go changes nothing). -/
def removeFirstById : List Order → ℕ → Option (List Order)
  | [], _ => none
  | o :: rest, i =>
      if o.id = i then some rest
      else (removeFirstById rest i).map (fun l => o :: l)

/-- `PriceLevel.RemoveOrder` (orderbook.go lines 38-47): remove the first
queue entry whose id matches, subtracting the passed order's amount from
the total; no change when the id is absent. -/
def PriceLevel.removeOrder (pl : PriceLevel) (o : Order) : PriceLevel :=
  match removeFirstById pl.orders o.id with
  | some rest => { pl with orders := rest, total := pl.total - o.amount }
  | none => pl

/-- `PriceLevel.UpdateOrderAmount` (orderbook.go lines 50-54): the total is
rebased from the passed order's current (old) amount to `newAmount`, and
`order.Amount` is overwritten through the shared pointer — the queue holds
the same pointer, so the queue entry with this id becomes the passed order
with the new amount. -/
def PriceLevel.updateOrderAmount (pl : PriceLevel) (o : Order) (newAmount : ℚ) :
    PriceLevel :=
  { pl with
    total := pl.total - o.amount + newAmount,
    orders := pl.orders.map (fun x => if x.id = o.id then { o with amount := newAmount } else x) }

/-- `matching.OrderBook` (orderbook.go lines 62-70): per side, the price
map plus the sorted price slice (bids descending, asks ascending) are
embedded together as one list of levels in slice order. -/
structure OrderBook where
  bids : List PriceLevel
  asks : List PriceLevel
deriving Repr, DecidableEq

/-- `OrderBook.AddOrder` + `insertBidPrice` / `insertAskPrice`
(orderbook.go lines 85-107, 191-204) for one side: append to the level
keyed by the order's price if present, otherwise create the level at its
sorted position (`before a b` = price `a` sorts strictly before price `b`
on this side).  Go appends and re-sorts the distinct price slice, which on
a sorted slice is exactly this sorted insert. -/
def addToLadder (before : ℚ → ℚ → Bool) : List PriceLevel → Order → List PriceLevel
  | [], o => [(newPriceLevel o.price).addOrder o]
  | lvl :: rest, o =>
      if lvl.price = o.price then lvl.addOrder o :: rest
      else if before o.price lvl.price then (newPriceLevel o.price).addOrder o :: lvl :: rest
      else lvl :: addToLadder before rest o

/-- Bid-side placement comparison: bids are sorted by price descending
(`insertBidPrice` sorts with `GreaterThan`). -/
def bidBefore (a b : ℚ) : Bool := decide (b < a)

/-- Ask-side placement comparison: asks are sorted by price ascending
(`insertAskPrice` sorts with `LessThan`). -/
def askBefore (a b : ℚ) : Bool := decide (a < b)

/-- `OrderBook.AddOrder` (orderbook.go lines 85-107): dispatch on
`order.Side`. -/
def OrderBook.addOrder (b : OrderBook) (o : Order) : OrderBook :=
  if o.side = 1 then { b with bids := addToLadder bidBefore b.bids o }
  else { b with asks := addToLadder askBefore b.asks o }

/-- One side of `OrderBook.RemoveOrder` (orderbook.go lines 110-136): find
the level keyed by the order's price, remove the order from it, delete the
level (and its price slice entry) when it drains; no change when the price
level is absent. -/
def removeFromLadder : List PriceLevel → Order → List PriceLevel
  | [], _ => []
  | lvl :: rest, o =>
      if lvl.price = o.price then
        let lvl' := lvl.removeOrder o
        if lvl'.orders.isEmpty then rest else lvl' :: rest
      else lvl :: removeFromLadder rest o

/-- `OrderBook.RemoveOrder` (orderbook.go lines 110-136). -/
def OrderBook.removeOrder (b : OrderBook) (o : Order) : OrderBook :=
  if o.side = 1 then { b with bids := removeFromLadder b.bids o }
  else { b with asks := removeFromLadder b.asks o }

/-- One side of `OrderBook.UpdateOrderAmount` (orderbook.go lines
227-245): update the level keyed by the order's price; no change when it
is absent (then Go also leaves `order.Amount` unwritten). -/
def updateLadderAmount : List PriceLevel → Order → ℚ → List PriceLevel
  | [], _, _ => []
  | lvl :: rest, o, newAmt =>
      if lvl.price = o.price then lvl.updateOrderAmount o newAmt :: rest
      else lvl :: updateLadderAmount rest o newAmt

/-- `OrderBook.UpdateOrderAmount` (orderbook.go lines 227-245). -/
def OrderBook.updateOrderAmount (b : OrderBook) (o : Order) (newAmt : ℚ) : OrderBook :=
  if o.side = 1 then { b with bids := updateLadderAmount b.bids o newAmt }
  else { b with asks := updateLadderAmount b.asks o newAmt }

/-- `matching.MatchResult` (orderbook.go lines 272-276). -/
structure MatchResult where
  trades : List Trade
  updatedOrders : List Order
  filledOrders : List Order
deriving Repr, DecidableEq

/-- `MatchingEngine.matchOrders` (orderbook.go lines 459-468): trade
amount is the minimum of the taker's remaining amount and the maker's
`amount − filled_amount`. -/
def matchOrders (takerRemaining : ℚ) (maker : Order) : ℚ :=
  min takerRemaining (maker.amount - maker.filledAmount)

/-- `MatchingEngine.createTrade` (orderbook.go lines 471-482): scalar
fields are copied, so the trade is a value snapshot. -/
def createTrade (buyOrder sellOrder : Order) (price amount : ℚ) : Trade :=
  { symbol := buyOrder.symbol
    buyOrderId := buyOrder.id
    sellOrderId := sellOrder.id
    buyUserId := buyOrder.userId
    sellUserId := sellOrder.userId
    price := price
    amount := amount }

/-- `MatchingEngine.updateMatchedOrder` (orderbook.go lines 485-505),
restricted to the maker's side of the book (the matching loops always pass
a maker resting on the ladder being walked, and `OrderBook.RemoveOrder` /
`UpdateOrderAmount` dispatch on `order.Side`, which for a well-formed book
is the side of that ladder).  Returns the maker's final value (the same
pointer the book and the result lists share), the updated ladder, and
whether the maker became fully filled. -/
def updateMatchedOrder (m : Order) (tradeAmount : ℚ) (ladder : List PriceLevel) :
    Order × List PriceLevel × Bool :=
  let newFilled := m.filledAmount + tradeAmount
  if m.amount ≤ newFilled then
    let m' := { m with filledAmount := newFilled, status := 3 }
    (m', removeFromLadder ladder m', true)
  else
    let m' := { m with filledAmount := newFilled, status := 2 }
    let remaining := m.amount - newFilled
    ({ m' with amount := remaining }, updateLadderAmount ladder m' remaining, false)

/-- Result of one matching walk: the taker's remaining amount, the walked
(opposing) ladder, and the accumulated result lists. -/
structure LoopOut where
  r : ℚ
  ladder : List PriceLevel
  trades : List Trade
  updated : List Order
  filled : List Order
deriving Repr, DecidableEq

/-- The matching `for` loop shared (up to the price guard and the
buy/sell argument order of `createTrade`) by `processLimitOrder` and
`processMarketOrder` (orderbook.go lines 353-371, 372-391, 402-420,
421-440): while the taker has remaining amount and the best opposing
level passes the price guard, trade against the head order of that level
and apply `updateMatchedOrder`.  `isBuy` states whether the taker is the
buy side.  The Go loop has no fuel; callers pass one more than the number
of resting orders, which the loop can never exhaust on a well-formed book
(each iteration either removes the head maker or zeroes the remaining
amount).  A level with an empty queue makes Go dereference nil; the
embedding stops there, and every theorem below assumes well-formed books,
where levels are never empty. -/
def matchLoop (taker : Order) (isBuy : Bool) (guard : ℚ → Bool) :
    ℕ → ℚ → List PriceLevel → List Trade → List Order → List Order → LoopOut
  | 0, r, ladder, ts, us, fs => ⟨r, ladder, ts, us, fs⟩
  | fuel + 1, r, ladder, ts, us, fs =>
      if 0 < r then
        match ladder with
        | [] => ⟨r, [], ts, us, fs⟩
        | lvl :: rest =>
            if guard lvl.price then
              match lvl.orders with
              | [] => ⟨r, lvl :: rest, ts, us, fs⟩
              | m :: _ =>
                  let x := matchOrders r m
                  let t := if isBuy then createTrade taker m lvl.price x
                           else createTrade m taker lvl.price x
                  let step := updateMatchedOrder m x (lvl :: rest)
                  if step.2.2 then
                    matchLoop taker isBuy guard fuel (r - x) step.2.1
                      (ts ++ [t]) us (fs ++ [step.1])
                  else
                    matchLoop taker isBuy guard fuel (r - x) step.2.1
                      (ts ++ [t]) (us ++ [step.1]) fs
            else ⟨r, lvl :: rest, ts, us, fs⟩
      else ⟨r, ladder, ts, us, fs⟩

/-- The (level price, order) pairs of a ladder in walk order: levels in
slice order, FIFO inside a level. -/
def flatPairs (ladder : List PriceLevel) : List (ℚ × Order) :=
  ladder.flatMap (fun lvl => lvl.orders.map (fun o => (lvl.price, o)))

/-- Number of resting orders on a ladder. -/
def totalOrders (ladder : List PriceLevel) : ℕ :=
  (flatPairs ladder).length

/-- Result of `ProcessOrder`: the taker's final value (the shared
pointer), the mutated book, and the `MatchResult`. -/
structure ProcOut where
  order : Order
  book : OrderBook
  result : MatchResult
deriving Repr, DecidableEq

/-- `MatchingEngine.updateCurrentOrder` (orderbook.go lines 508-530):
fully matched → status 3 with `FilledAmount := Amount`; partially matched
→ status 2, `FilledAmount := Amount − remaining`, **`Amount` overwritten
with the remaining quantity**, re-inserted into the book; unmatched →
status 1, inserted into the book. -/
def updateCurrentOrder (o : Order) (remainingAmount : ℚ) (book : OrderBook)
    (ts : List Trade) (us fs : List Order) : ProcOut :=
  let orderAmount := o.amount
  if remainingAmount = 0 then
    let o' := { o with status := 3, filledAmount := orderAmount }
    ⟨o', book, ⟨ts, us, fs ++ [o']⟩⟩
  else if remainingAmount < orderAmount then
    let o' := { o with
                status := 2
                filledAmount := orderAmount - remainingAmount
                amount := remainingAmount }
    ⟨o', book.addOrder o', ⟨ts, us ++ [o'], fs⟩⟩
  else
    let o' := { o with status := 1 }
    ⟨o', book.addOrder o', ⟨ts, us ++ [o'], fs⟩⟩

/-- `MatchingEngine.processLimitOrder` (orderbook.go lines 348-395):
a buy walks the asks while `best_ask.price ≤ order.price`, a sell walks
the bids while `best_bid.price ≥ order.price`; afterwards
`updateCurrentOrder` settles the taker. -/
def processLimitOrder (o : Order) (book : OrderBook) : ProcOut :=
  let orderPrice := o.price
  let orderAmount := o.amount
  if o.side = 1 then
    let out := matchLoop o true (fun p => decide (p ≤ orderPrice))
      (totalOrders book.asks + 1) orderAmount book.asks [] [] []
    updateCurrentOrder o out.r ({ book with asks := out.ladder }) out.trades out.updated out.filled
  else
    let out := matchLoop o false (fun p => decide (orderPrice ≤ p))
      (totalOrders book.bids + 1) orderAmount book.bids [] [] []
    updateCurrentOrder o out.r ({ book with bids := out.ladder }) out.trades out.updated out.filled

/-- `MatchingEngine.processMarketOrder` (orderbook.go lines 398-456):
the same walk with no price guard and no insertion; afterwards, only when
something was consumed (`remaining < amount`), the filled amount is
accumulated and the status set to 3 (fully consumed) or 4 (partially
consumed).  A market order that matched nothing is left untouched. -/
def processMarketOrder (o : Order) (book : OrderBook) : ProcOut :=
  let orderAmount := o.amount
  if o.side = 1 then
    let out := matchLoop o true (fun _ => true)
      (totalOrders book.asks + 1) orderAmount book.asks [] [] []
    let book' := { book with asks := out.ladder }
    if out.r < orderAmount then
      let newFilled := o.filledAmount + (orderAmount - out.r)
      if out.r = 0 then
        let o' := { o with filledAmount := newFilled, status := 3 }
        ⟨o', book', ⟨out.trades, out.updated ++ [o'], out.filled ++ [o']⟩⟩
      else
        let o' := { o with filledAmount := newFilled, status := 4 }
        ⟨o', book', ⟨out.trades, out.updated ++ [o'], out.filled⟩⟩
    else ⟨o, book', ⟨out.trades, out.updated, out.filled⟩⟩
  else
    let out := matchLoop o false (fun _ => true)
      (totalOrders book.bids + 1) orderAmount book.bids [] [] []
    let book' := { book with bids := out.ladder }
    if out.r < orderAmount then
      let newFilled := o.filledAmount + (orderAmount - out.r)
      if out.r = 0 then
        let o' := { o with filledAmount := newFilled, status := 3 }
        ⟨o', book', ⟨out.trades, out.updated ++ [o'], out.filled ++ [o']⟩⟩
      else
        let o' := { o with filledAmount := newFilled, status := 4 }
        ⟨o', book', ⟨out.trades, out.updated ++ [o'], out.filled⟩⟩
    else ⟨o, book', ⟨out.trades, out.updated, out.filled⟩⟩

/-- `MatchingEngine.ProcessOrder` (orderbook.go lines 321-345): dispatch
on the order type; unknown types are an error (a nil order cannot arise in
the value embedding). -/
def processOrder (o : Order) (book : OrderBook) : Except String ProcOut :=
  if o.otype = 1 then Except.ok (processLimitOrder o book)
  else if o.otype = 2 then Except.ok (processMarketOrder o book)
  else Except.error "unsupported order type"

/-! ## Settlement (src/unnamed/part_006, `MatchingService`) -/

/-- `model.Balance` (src/model/balance.go): one (user, currency) row with
available and frozen sub-balances (decimal strings, embedded as `ℚ`). -/
structure BalanceRow where
  userId : ℕ
  currency : String
  available : ℚ
  frozen : ℚ
deriving Repr, DecidableEq

/-- `FindByUserIDAndCurrency` (balance.go lines 97-109): the first row
matching user and currency (`LIMIT 1`). -/
def findBalance (rows : List BalanceRow) (uid : ℕ) (ccy : String) : Option BalanceRow :=
  rows.find? (fun b => b.userId == uid && b.currency == ccy)

/-- `UpdateBalance` (balance.go lines 111-115): SQL `UPDATE ... WHERE
user_id AND currency` sets available and frozen on every matching row
(exactly one under the table's unique key). -/
def updateBalanceRows (rows : List BalanceRow) (uid : ℕ) (ccy : String)
    (avail frz : ℚ) : List BalanceRow :=
  rows.map (fun b =>
    if b.userId = uid ∧ b.currency = ccy then { b with available := avail, frozen := frz } else b)

/-- First-slash split behind `MatchingService.parseSymbol`
(part_006 lines 247-258): Go scans for the first `/`. -/
def splitAtSlash : List Char → Option (List Char × List Char)
  | [] => none
  | c :: rest =>
      if c = '/' then some ([], rest)
      else (splitAtSlash rest).map (fun p => (c :: p.1, p.2))

/-- `MatchingService.parseSymbol` (part_006 lines 247-258): split at the
first `/`; error when there is none or it is the first or last
character. -/
def parseSymbol (s : String) : Except String (String × String) :=
  match splitAtSlash s.toList with
  | none => Except.error "invalid symbol format: no separator found"
  | some (b, q) =>
      if b.isEmpty ∨ q.isEmpty then Except.error "invalid symbol format"
      else Except.ok (String.mk b, String.mk q)

/-- `MatchingService.applyBalanceChange` (part_006 lines 213-244): a zero
delta is a no-op; a missing row is created with `available := amount` and
`frozen := 0`; otherwise only `available` is changed (the row's own
`frozen` is written back unchanged), failing when it would go negative. -/
def applyBalanceChange (rows : List BalanceRow) (uid : ℕ) (ccy : String) (amount : ℚ) :
    Except String (List BalanceRow) :=
  if amount = 0 then Except.ok rows
  else
    match findBalance rows uid ccy with
    | none => Except.ok (rows ++ [⟨uid, ccy, amount, 0⟩])
    | some b =>
        let newAvailable := b.available + amount
        if newAvailable < 0 then Except.error "insufficient balance after trade execution"
        else Except.ok (updateBalanceRows rows uid ccy newAvailable b.frozen)

/-- One upsert into the `balanceChanges` aggregation map of
`MatchingService.updateUserBalances` (part_006 lines 133-159).  Go keys
the map by the string `uid + "_" + currency` (`getUserCurrencyKey`),
which `parseUserCurrencyKey` round-trips, so the key is embedded as the
pair directly; map insertion order is the list order here. -/
def addBalanceChange (changes : List ((ℕ × String) × ℚ)) (key : ℕ × String) (delta : ℚ) :
    List ((ℕ × String) × ℚ) :=
  if changes.any (fun e => e.1 == key) then
    changes.map (fun e => if e.1 = key then (e.1, e.2 + delta) else e)
  else changes ++ [(key, delta)]

/-- The aggregation loop of `MatchingService.updateUserBalances`
(part_006 lines 135-159): per trade, buyer quote `−price*amount`, buyer
base `+amount`, seller base `−amount`, seller quote `+price*amount`, in
that order. -/
def buildBalanceChanges : List Trade → List ((ℕ × String) × ℚ) →
    Except String (List ((ℕ × String) × ℚ))
  | [], acc => Except.ok acc
  | t :: rest, acc =>
      match parseSymbol t.symbol with
      | Except.error e => Except.error e
      | Except.ok bq =>
          let totalValue := t.price * t.amount
          let acc1 := addBalanceChange acc (t.buyUserId, bq.2) (-totalValue)
          let acc2 := addBalanceChange acc1 (t.buyUserId, bq.1) t.amount
          let acc3 := addBalanceChange acc2 (t.sellUserId, bq.1) (-t.amount)
          let acc4 := addBalanceChange acc3 (t.sellUserId, bq.2) totalValue
          buildBalanceChanges rest acc4

/-- The application loop of `MatchingService.updateUserBalances`
(part_006 lines 162-167).  Go iterates the map in unspecified order; the
embedding uses first-occurrence order (distinct keys touch disjoint rows,
so the successful result is order-independent). -/
def applyBalanceChanges : List BalanceRow → List ((ℕ × String) × ℚ) →
    Except String (List BalanceRow)
  | rows, [] => Except.ok rows
  | rows, kv :: rest =>
      match applyBalanceChange rows kv.1.1 kv.1.2 kv.2 with
      | Except.error e => Except.error e
      | Except.ok rows' => applyBalanceChanges rows' rest

/-- `MatchingService.updateUserBalances` (part_006 lines 131-170):
aggregate the per-trade deltas, then apply them per (user, currency). -/
def updateUserBalances (rows : List BalanceRow) (trades : List Trade) :
    Except String (List BalanceRow) :=
  match buildBalanceChanges trades [] with
  | Except.error e => Except.error e
  | Except.ok changes => applyBalanceChanges rows changes

/-! ## Order lifecycle (create/cancel logic) -/

/-- `model.TradingPair` (the fields the lifecycle paths read). -/
structure TradingPair where
  symbol : String
  baseCurrency : String
  quoteCurrency : String
  status : ℤ
deriving Repr, DecidableEq

/-- `CreateOrderLogic.calculateFreezeAmount` (createorderlogic.go lines
215-243): a buy freezes quote currency — `amount*price` for a limit buy,
the raw `Amount` for a market buy (the code comments that a market buy's
`Amount` is the quote currency to spend); a sell freezes `amount` of the
base currency. -/
def calculateFreezeAmount (otype side : ℤ) (amount price : ℚ) (tp : TradingPair) :
    String × ℚ :=
  if side = 1 then
    if otype = 1 then (tp.quoteCurrency, amount * price)
    else (tp.quoteCurrency, amount)
  else (tp.baseCurrency, amount)

/-- `CancelOrderLogic.calculateUnfreezeAmount` (cancelorderlogic.go lines
120-161): residual `amount − filled_amount`; when it is ≤ 0 the amount is
the zero string (and the unfreeze is skipped); a limit buy unfreezes
`residual*price` quote, a market buy `residual` quote, a sell `residual`
base. -/
def calculateUnfreezeAmount (o : Order) (tp : TradingPair) : String × ℚ :=
  let remaining := o.amount - o.filledAmount
  if remaining ≤ 0 then ("", 0)
  else if o.side = 1 then
    if o.otype = 1 then (tp.quoteCurrency, remaining * o.price)
    else (tp.quoteCurrency, remaining)
  else (tp.baseCurrency, remaining)

/-- `customBalanceModel.UnfreezeBalance` (balance.go lines 169-207):
requires a positive amount, an existing row, and sufficient frozen funds;
then moves the amount from frozen to available. -/
def unfreezeBalance (rows : List BalanceRow) (uid : ℕ) (ccy : String) (amt : ℚ) :
    Except String (List BalanceRow) :=
  if amt ≤ 0 then Except.error "unfreeze amount must be positive"
  else
    match findBalance rows uid ccy with
    | none => Except.error "balance not found"
    | some b =>
        if b.frozen < amt then Except.error "insufficient frozen balance"
        else Except.ok (updateBalanceRows rows uid ccy (b.available + amt) (b.frozen - amt))

/-- The state the cancel path touches: the persisted orders and balances,
the trading-pair table, and the in-memory order book of the symbol. -/
structure ExchState where
  orders : List Order
  balances : List BalanceRow
  pairs : List TradingPair
  book : OrderBook
deriving Repr, DecidableEq

/-- `CancelOrderLogic.CancelOrder` (cancelorderlogic.go lines 31-100):
look the order up (`OrderNotFound` when absent), check ownership
(`Forbidden`), reject status 4 (`OrderAlreadyCanceled`) and 3
(`OrderAlreadyFilled`), fetch the trading pair, compute the residual
unfreeze, then in one transaction set the status to 4 and — unless the
amount string is `"0"`, i.e. the value is zero — unfreeze; a failing
transaction rolls the state back.  The error strings name the `model`
error variables.  Note the Go code never calls the matching engine here:
`ExchState.book` is untouched on every path. -/
def cancelOrder (st : ExchState) (userId : ℕ) (orderId : ℕ) :
    Except String Unit × ExchState :=
  match st.orders.find? (fun o => o.id == orderId) with
  | none => (Except.error "OrderNotFound", st)
  | some o =>
      if o.userId ≠ userId then (Except.error "Forbidden", st)
      else if o.status = 4 then (Except.error "OrderAlreadyCanceled", st)
      else if o.status = 3 then (Except.error "OrderAlreadyFilled", st)
      else
        match st.pairs.find? (fun tp => tp.symbol == o.symbol) with
        | none => (Except.error "TradingPairNotFound", st)
        | some tp =>
            let cu := calculateUnfreezeAmount o tp
            let newOrders :=
              st.orders.map (fun x => if x.id = o.id then { x with status := 4 } else x)
            if cu.2 ≠ 0 then
              match unfreezeBalance st.balances userId cu.1 cu.2 with
              | Except.error e => (Except.error e, st)
              | Except.ok rows' =>
                  (Except.ok (), { st with orders := newOrders, balances := rows' })
            else (Except.ok (), { st with orders := newOrders })

/-! ## Well-formedness of the in-memory book -/

/-- The resting orders of a ladder in walk order. -/
def flatOrders (ladder : List PriceLevel) : List Order :=
  ladder.flatMap (fun lvl => lvl.orders)

/-- The ids of the resting orders of a ladder in walk order. -/
def ladderIds (ladder : List PriceLevel) : List ℕ :=
  (flatOrders ladder).map Order.id

/-- Adjacent-sortedness of a price list under the side's placement
comparison. -/
def sortedBy (before : ℚ → ℚ → Bool) : List ℚ → Bool
  | [] => true
  | [_] => true
  | a :: b :: rest => before a b && sortedBy before (b :: rest)

/-- Levels are never empty (Go deletes drained levels) and every resting
order's price equals its level's price (Go keys levels by the order's
price string). -/
def LevelsOk (ladder : List PriceLevel) : Prop :=
  ∀ lvl ∈ ladder, lvl.orders ≠ [] ∧ ∀ o ∈ lvl.orders, o.price = lvl.price

/-- Every resting order's side field matches its ladder (Go dispatches
`RemoveOrder`/`UpdateOrderAmount` on `order.Side`). -/
def SidesOk (ladder : List PriceLevel) (s : ℤ) : Prop :=
  ∀ lvl ∈ ladder, ∀ o ∈ lvl.orders, o.side = s

/-- Distinct order ids on a ladder (database ids are unique). -/
def IdsNodup (ladder : List PriceLevel) : Prop :=
  (ladderIds ladder).Nodup

/-- Well-formed book: the invariants `OrderBook.AddOrder`/`RemoveOrder`
maintain — non-empty levels keyed by their orders' prices, sides
consistent, ids distinct, bids sorted descending, asks ascending. -/
def bookWF (b : OrderBook) : Prop :=
  LevelsOk b.bids ∧ LevelsOk b.asks ∧
  SidesOk b.bids 1 ∧ SidesOk b.asks 2 ∧
  IdsNodup b.bids ∧ IdsNodup b.asks ∧
  sortedBy bidBefore (b.bids.map PriceLevel.price) = true ∧
  sortedBy askBefore (b.asks.map PriceLevel.price) = true

/-- The book does not self-cross: best bid strictly below best ask
whenever both sides are non-empty. -/
def uncrossed (b : OrderBook) : Prop :=
  ∀ bl al, b.bids.head? = some bl → b.asks.head? = some al → bl.price < al.price

/-- The maker's order id on a trade, given the taker's side: a buy taker's
makers are the sell orders and vice versa. -/
def tradeMakerId (side : ℤ) (t : Trade) : ℕ :=
  if side = 1 then t.sellOrderId else t.buyOrderId

instance (ladder : List PriceLevel) : Decidable (LevelsOk ladder) := by
  unfold LevelsOk; infer_instance

instance (ladder : List PriceLevel) (s : ℤ) : Decidable (SidesOk ladder s) := by
  unfold SidesOk; infer_instance

instance (ladder : List PriceLevel) : Decidable (IdsNodup ladder) := by
  unfold IdsNodup; infer_instance

instance (b : OrderBook) : Decidable (bookWF b) := by
  unfold bookWF; infer_instance

attribute [local semireducible] Rat.add Rat.sub Rat.mul Rat.inv

instance {ε α : Type} [DecidableEq ε] [DecidableEq α] : DecidableEq (Except ε α) := fun x y =>
  match x, y with
  | Except.ok a, Except.ok b =>
      if h : a = b then isTrue (by rw [h])
      else isFalse (fun he => by cases he; exact h rfl)
  | Except.ok _, Except.error _ => isFalse (fun he => by cases he)
  | Except.error _, Except.ok _ => isFalse (fun he => by cases he)
  | Except.error e, Except.error f =>
      if h : e = f then isTrue (by rw [h])
      else isFalse (fun he => by cases he; exact h rfl)

instance (b : OrderBook) : Decidable (uncrossed b) :=
  decidable_of_iff (∀ bl ∈ b.bids.head?, ∀ al ∈ b.asks.head?, bl.price < al.price)
    (by
      constructor
      · intro h bl al hb ha
        exact h bl hb al ha
      · intro h bl hb al ha
        exact h bl al hb ha)

/-! ## Concrete sample data for evaluating the claims on inputs -/

/-- A resting sell of 0.5 BTC at 50000. -/
def sampleSellHalf : Order := ⟨1, 1, "BTC/USDT", 1, 2, (1 : ℚ)/2, 50000, 0, 1⟩

/-- A resting sell of 0.8 BTC at 50500. -/
def sampleSellEight : Order := ⟨2, 1, "BTC/USDT", 1, 2, (4 : ℚ)/5, 50500, 0, 1⟩

/-- An ask ladder with the two resting sells at ascending prices. -/
def sampleAsks : List PriceLevel :=
  [⟨50000, [sampleSellHalf], (1 : ℚ)/2⟩, ⟨50500, [sampleSellEight], (4 : ℚ)/5⟩]

/-- A book with an empty bid side and the two-level ask ladder. -/
def sampleBook : OrderBook := ⟨[], sampleAsks⟩

/-- An incoming limit buy of 1 BTC at 50200: it crosses only the best ask. -/
def sampleLimitBuy : Order := ⟨3, 2, "BTC/USDT", 1, 1, 1, 50200, 0, 1⟩

/-- An incoming market buy with Amount 1 (one unit of quote spend under the
lifecycle service's reading of a market buy). -/
def sampleMarketBuy : Order := ⟨3, 2, "BTC/USDT", 2, 1, 1, 0, 0, 1⟩

/-- An incoming market sell of 1 BTC. -/
def sampleMarketSell : Order := ⟨5, 9, "BTC/USDT", 2, 2, 1, 0, 0, 1⟩

/-- The empty book. -/
def emptyBook : OrderBook := ⟨[], []⟩

/-- A resting sell of 7 BTC at 50000. -/
def sampleSellSeven : Order := ⟨1, 1, "BTC/USDT", 1, 2, 7, 50000, 0, 1⟩

/-- A book holding only `sampleSellSeven`. -/
def sampleBookSeven : OrderBook := ⟨[], [⟨50000, [sampleSellSeven], 7⟩]⟩

/-- An incoming limit buy of 10 BTC at 50000: it sweeps `sampleSellSeven`
and rests with 7 filled out of 10. -/
def sampleBuyTen : Order := ⟨2, 2, "BTC/USDT", 1, 1, 10, 50000, 0, 1⟩

/-- The BTC/USDT trading pair. -/
def samplePair : TradingPair := ⟨"BTC/USDT", "BTC", "USDT", 1⟩

/-- A pending limit buy of 1 BTC at 50000 owned by user 7. -/
def samplePendingBuy : Order := ⟨1, 7, "BTC/USDT", 1, 1, 1, 50000, 0, 1⟩

/-- An exchange state where `samplePendingBuy` rests on the book and user 7
has the matching 50000 USDT frozen. -/
def sampleState : ExchState :=
  ⟨[samplePendingBuy], [⟨7, "USDT", 0, 50000⟩], [samplePair],
    ⟨[⟨50000, [samplePendingBuy], 1⟩], []⟩⟩

/-- An exchange state with one canceled (id 1) and one filled (id 2)
order. -/
def sampleTerminalState : ExchState :=
  ⟨[⟨1, 7, "BTC/USDT", 1, 1, 1, 50000, 0, 4⟩,
    ⟨2, 7, "BTC/USDT", 1, 1, 1, 50000, 1, 3⟩], [], [samplePair], ⟨[], []⟩⟩

/-- The value of `sampleLimitBuy` after crossing `sampleBook`: half a
unit filled at the best ask, the rest resting. -/
def sampleLimitTaker : Order := ⟨3, 2, "BTC/USDT", 1, 1, (1 : ℚ)/2, 50200, (1 : ℚ)/2, 2⟩

/-- The trade `sampleLimitBuy` strikes against `sampleSellHalf`. -/
def sampleLimitTrade : Trade := ⟨"BTC/USDT", 3, 1, 2, 1, 50000, (1 : ℚ)/2⟩

/-- The full output of `processOrder sampleLimitBuy sampleBook`. -/
def sampleLimitOut : ProcOut :=
  ⟨sampleLimitTaker,
   ⟨[⟨50200, [sampleLimitTaker], (1 : ℚ)/2⟩], [⟨50500, [sampleSellEight], (4 : ℚ)/5⟩]⟩,
   ⟨[sampleLimitTrade], [sampleLimitTaker],
    [⟨1, 1, "BTC/USDT", 1, 2, (1 : ℚ)/2, 50000, (1 : ℚ)/2, 3⟩]⟩⟩

/-- The output of `processOrder sampleBuyTen sampleBookSeven`: the taker
rests with `Amount` overwritten to 3 and `FilledAmount` 7. -/
def sampleTenOut : ProcOut :=
  ⟨⟨2, 2, "BTC/USDT", 1, 1, 3, 50000, 7, 2⟩,
   ⟨[⟨50000, [⟨2, 2, "BTC/USDT", 1, 1, 3, 50000, 7, 2⟩], 3⟩], []⟩,
   ⟨[⟨"BTC/USDT", 2, 1, 2, 1, 50000, 7⟩],
    [⟨2, 2, "BTC/USDT", 1, 1, 3, 50000, 7, 2⟩],
    [⟨1, 1, "BTC/USDT", 1, 2, 7, 50000, 7, 3⟩]⟩⟩

/-- The output of `processOrder sampleMarketBuy sampleBook`: the walk
strikes both price levels for a total base quantity of 1. -/
def sampleMarketOut : ProcOut :=
  ⟨⟨3, 2, "BTC/USDT", 2, 1, 1, 0, 1, 3⟩,
   ⟨[], [⟨50500, [⟨2, 1, "BTC/USDT", 1, 2, (3 : ℚ)/10, 50500, (1 : ℚ)/2, 2⟩], (3 : ℚ)/10⟩]⟩,
   ⟨[sampleLimitTrade, ⟨"BTC/USDT", 3, 2, 2, 1, 50500, (1 : ℚ)/2⟩],
    [⟨2, 1, "BTC/USDT", 1, 2, (3 : ℚ)/10, 50500, (1 : ℚ)/2, 2⟩,
     ⟨3, 2, "BTC/USDT", 2, 1, 1, 0, 1, 3⟩],
    [⟨1, 1, "BTC/USDT", 1, 2, (1 : ℚ)/2, 50000, (1 : ℚ)/2, 3⟩,
     ⟨3, 2, "BTC/USDT", 2, 1, 1, 0, 1, 3⟩]⟩⟩

/-- A settled trade of 3 BTC at 2 USDT between buyer 1 and seller 2. -/
def sampleTrade : Trade := ⟨"BTC/USDT", 10, 11, 1, 2, 2, 3⟩

/-- Balance rows before settling `sampleTrade`: buyer 1 holds 100 USDT
available with 6 frozen for the buy, seller 2 holds 5 BTC available with
3 frozen for the sell. -/
def sampleRows : List BalanceRow :=
  [⟨1, "USDT", 100, 6⟩, ⟨1, "BTC", 10, 0⟩, ⟨2, "BTC", 5, 3⟩, ⟨2, "USDT", 0, 0⟩]

/-! ## Helper lemmas -/

theorem map_self_of_fix {f : Order → Order} :
    ∀ (l : List Order), (∀ x ∈ l, f x = x) → l.map f = l := by
  intro l
  induction l with
  | nil => intro _; rfl
  | cons a t ih =>
      intro h
      simp only [List.map_cons]
      rw [h a (by simp), ih (fun x hx => h x (by simp [hx]))]

theorem flatPairs_cons (lvl : PriceLevel) (rest : List PriceLevel) :
    flatPairs (lvl :: rest) =
      lvl.orders.map (fun o => (lvl.price, o)) ++ flatPairs rest := by
  simp [flatPairs]

theorem flatOrders_cons (lvl : PriceLevel) (rest : List PriceLevel) :
    flatOrders (lvl :: rest) = lvl.orders ++ flatOrders rest := by
  simp [flatOrders]

theorem flatPairs_snd (ladder : List PriceLevel) :
    (flatPairs ladder).map Prod.snd = flatOrders ladder := by
  induction ladder with
  | nil => rfl
  | cons lvl rest ih =>
      simp [flatPairs_cons, flatOrders_cons, ih]

theorem mem_flatPairs {ladder : List PriceLevel} {q : ℚ × Order} :
    q ∈ flatPairs ladder ↔ ∃ lvl ∈ ladder, lvl.price = q.1 ∧ q.2 ∈ lvl.orders := by
  induction ladder with
  | nil => simp [flatPairs]
  | cons lvl rest ih =>
      simp only [flatPairs_cons, List.mem_append, List.mem_map, List.mem_cons, ih]
      constructor
      · rintro (⟨o, ho, rfl⟩ | ⟨l, hl, h1, h2⟩)
        · exact ⟨lvl, Or.inl rfl, rfl, ho⟩
        · exact ⟨l, Or.inr hl, h1, h2⟩
      · rintro ⟨l, hl | hl, h1, h2⟩
        · subst hl
          refine Or.inl ⟨q.2, h2, ?_⟩
          rw [h1]
        · exact Or.inr ⟨l, hl, h1, h2⟩

theorem levelsOk_cons {lvl : PriceLevel} {rest : List PriceLevel}
    (h : LevelsOk (lvl :: rest)) :
    (lvl.orders ≠ [] ∧ ∀ o ∈ lvl.orders, o.price = lvl.price) ∧ LevelsOk rest :=
  ⟨h lvl (by simp), fun l hl => h l (by simp [hl])⟩

theorem idsNodup_cons {lvl : PriceLevel} {rest : List PriceLevel} {m : Order}
    {ms : List Order} (homs : lvl.orders = m :: ms) (h : IdsNodup (lvl :: rest)) :
    m.id ∉ (ms.map Order.id ++ ladderIds rest) ∧
      ((ms.map Order.id ++ ladderIds rest)).Nodup := by
  have hexp : ladderIds (lvl :: rest) = m.id :: (ms.map Order.id ++ ladderIds rest) := by
    simp [ladderIds, flatOrders_cons, homs]
  have h2 := h
  unfold IdsNodup at h2
  rw [hexp] at h2
  exact ⟨List.nodup_cons.mp h2 |>.1, List.nodup_cons.mp h2 |>.2⟩

theorem sorted_head_rel {R : ℚ → ℚ → Prop} {before : ℚ → ℚ → Bool}
    (hb : ∀ a b, before a b = true → R a b)
    (hrefl : ∀ a, R a a)
    (htr : ∀ {a b c}, R a b → R b c → R a c) :
    ∀ (ps : List ℚ), sortedBy before ps = true →
      ∀ a, ps.head? = some a → ∀ q ∈ ps, R a q := by
  intro ps
  induction ps with
  | nil => intro _ a _ q hq; simp at hq
  | cons x t ih =>
      intro hs a ha q hq
      have hax : x = a := by simpa using ha
      subst hax
      rcases List.mem_cons.mp hq with hqx | hqt
      · rw [hqx]; exact hrefl x
      · match t, hqt with
        | y :: t', hqt =>
            have hs' : before x y = true ∧ sortedBy before (y :: t') = true := by
              simpa [sortedBy, Bool.and_eq_true] using hs
            exact htr (hb x y hs'.1) (ih hs'.2 y rfl q hqt)

/-! ## Step lemmas for the matching loop -/

theorem updateMatchedOrder_fill (m : Order) (x : ℚ) (ladder : List PriceLevel)
    (h : m.amount ≤ m.filledAmount + x) :
    updateMatchedOrder m x ladder =
      ({ m with filledAmount := m.filledAmount + x, status := 3 },
       removeFromLadder ladder { m with filledAmount := m.filledAmount + x, status := 3 },
       true) := by
  simp [updateMatchedOrder, h]

theorem updateMatchedOrder_part (m : Order) (x : ℚ) (ladder : List PriceLevel)
    (h : ¬ m.amount ≤ m.filledAmount + x) :
    updateMatchedOrder m x ladder =
      ({ m with filledAmount := m.filledAmount + x, status := 2,
                amount := m.amount - (m.filledAmount + x) },
       updateLadderAmount ladder { m with filledAmount := m.filledAmount + x, status := 2 }
         (m.amount - (m.filledAmount + x)),
       false) := by
  simp [updateMatchedOrder, h]

theorem removeFromLadder_head (lvl : PriceLevel) (rest : List PriceLevel)
    (m2 : Order) (m : Order) (ms : List Order)
    (hp : lvl.price = m2.price) (homs : lvl.orders = m :: ms) (hid : m2.id = m.id) :
    removeFromLadder (lvl :: rest) m2 =
      if ms.isEmpty then rest
      else { lvl with orders := ms, total := lvl.total - m2.amount } :: rest := by
  have h1 : removeFirstById lvl.orders m2.id = some ms := by
    rw [homs]
    simp [removeFirstById, hid.symm]
  simp only [removeFromLadder, if_pos hp, PriceLevel.removeOrder, h1]

theorem updateLadderAmount_head (lvl : PriceLevel) (rest : List PriceLevel)
    (m2 : Order) (m : Order) (ms : List Order) (newAmt : ℚ)
    (hp : lvl.price = m2.price) (homs : lvl.orders = m :: ms) (hid : m2.id = m.id)
    (hnd : m.id ∉ ms.map Order.id) :
    updateLadderAmount (lvl :: rest) m2 newAmt =
      { lvl with total := lvl.total - m2.amount + newAmt,
                 orders := { m2 with amount := newAmt } :: ms } :: rest := by
  have h1 : lvl.orders.map
      (fun x => if x.id = m2.id then { m2 with amount := newAmt } else x) =
      { m2 with amount := newAmt } :: ms := by
    rw [homs, List.map_cons]
    congr 1
    · rw [if_pos hid.symm]
    · apply map_self_of_fix
      intro o ho
      have hne : o.id ≠ m2.id := by
        rw [hid]
        intro hcon
        exact hnd (hcon ▸ List.mem_map_of_mem Order.id ho)
      rw [if_neg hne]
  simp only [updateLadderAmount, if_pos hp, PriceLevel.updateOrderAmount, h1]

theorem matchLoop_of_nonpos (taker : Order) (isBuy : Bool) (guard : ℚ → Bool)
    (fuel : ℕ) (r : ℚ) (ladder : List PriceLevel)
    (ts : List Trade) (us fs : List Order) (h0 : ¬ 0 < r) :
    matchLoop taker isBuy guard fuel r ladder ts us fs = ⟨r, ladder, ts, us, fs⟩ := by
  cases fuel with
  | zero => rfl
  | succ fuel => simp [matchLoop, h0]

theorem matchLoop_iter (taker : Order) (isBuy : Bool) (guard : ℚ → Bool)
    (fuel : ℕ) (r : ℚ) (lvl : PriceLevel) (rest : List PriceLevel)
    (ts : List Trade) (us fs : List Order) (m : Order) (ms : List Order)
    (h0 : 0 < r) (hg : guard lvl.price = true) (homs : lvl.orders = m :: ms) :
    matchLoop taker isBuy guard (fuel + 1) r (lvl :: rest) ts us fs =
      (let x := matchOrders r m
       let t := if isBuy then createTrade taker m lvl.price x
                else createTrade m taker lvl.price x
       let step := updateMatchedOrder m x (lvl :: rest)
       if step.2.2 then
         matchLoop taker isBuy guard fuel (r - x) step.2.1 (ts ++ [t]) us (fs ++ [step.1])
       else
         matchLoop taker isBuy guard fuel (r - x) step.2.1 (ts ++ [t]) (us ++ [step.1]) fs) := by
  conv_lhs => rw [matchLoop]
  rw [if_pos h0]
  rw [homs]
  simp [hg]

theorem matchLoop_guard_stop (taker : Order) (isBuy : Bool) (guard : ℚ → Bool)
    (fuel : ℕ) (r : ℚ) (lvl : PriceLevel) (rest : List PriceLevel)
    (ts : List Trade) (us fs : List Order)
    (h0 : 0 < r) (hg : guard lvl.price = false) :
    matchLoop taker isBuy guard (fuel + 1) r (lvl :: rest) ts us fs =
      ⟨r, lvl :: rest, ts, us, fs⟩ := by
  conv_lhs => rw [matchLoop]
  rw [if_pos h0]
  simp [hg]

theorem matchLoop_nil (taker : Order) (isBuy : Bool) (guard : ℚ → Bool)
    (fuel : ℕ) (r : ℚ) (ts : List Trade) (us fs : List Order) (h0 : 0 < r) :
    matchLoop taker isBuy guard (fuel + 1) r [] ts us fs = ⟨r, [], ts, us, fs⟩ := by
  conv_lhs => rw [matchLoop]
  rw [if_pos h0]

theorem matchOrders_le_left (r : ℚ) (m : Order) : matchOrders r m ≤ r :=
  min_le_left _ _

theorem matchOrders_eq_of_part (r : ℚ) (m : Order)
    (h : ¬ m.amount ≤ m.filledAmount + matchOrders r m) : matchOrders r m = r := by
  rcases le_total r (m.amount - m.filledAmount) with hle | hle
  · exact min_eq_left hle
  · exfalso
    apply h
    rw [matchOrders, min_eq_right hle]
    linarith

theorem matchLoop_iter_fill (taker : Order) (isBuy : Bool) (guard : ℚ → Bool)
    (fuel : ℕ) (r : ℚ) (lvl : PriceLevel) (rest : List PriceLevel)
    (ts : List Trade) (us fs : List Order) (m : Order) (ms : List Order)
    (h0 : 0 < r) (hg : guard lvl.price = true) (homs : lvl.orders = m :: ms)
    (hfill : m.amount ≤ m.filledAmount + matchOrders r m) :
    matchLoop taker isBuy guard (fuel + 1) r (lvl :: rest) ts us fs =
      matchLoop taker isBuy guard fuel (r - matchOrders r m)
        (removeFromLadder (lvl :: rest)
          { m with filledAmount := m.filledAmount + matchOrders r m, status := 3 })
        (ts ++ [if isBuy then createTrade taker m lvl.price (matchOrders r m)
                else createTrade m taker lvl.price (matchOrders r m)])
        us
        (fs ++ [{ m with filledAmount := m.filledAmount + matchOrders r m, status := 3 }]) := by
  rw [matchLoop_iter taker isBuy guard fuel r lvl rest ts us fs m ms h0 hg homs]
  simp only [updateMatchedOrder_fill m (matchOrders r m) (lvl :: rest) hfill]
  simp

theorem matchLoop_iter_part (taker : Order) (isBuy : Bool) (guard : ℚ → Bool)
    (fuel : ℕ) (r : ℚ) (lvl : PriceLevel) (rest : List PriceLevel)
    (ts : List Trade) (us fs : List Order) (m : Order) (ms : List Order)
    (h0 : 0 < r) (hg : guard lvl.price = true) (homs : lvl.orders = m :: ms)
    (hfill : ¬ m.amount ≤ m.filledAmount + matchOrders r m) :
    matchLoop taker isBuy guard (fuel + 1) r (lvl :: rest) ts us fs =
      matchLoop taker isBuy guard fuel (r - matchOrders r m)
        (updateLadderAmount (lvl :: rest)
          { m with filledAmount := m.filledAmount + matchOrders r m, status := 2 }
          (m.amount - (m.filledAmount + matchOrders r m)))
        (ts ++ [if isBuy then createTrade taker m lvl.price (matchOrders r m)
                else createTrade m taker lvl.price (matchOrders r m)])
        (us ++ [{ m with
                  filledAmount := m.filledAmount + matchOrders r m
                  status := 2
                  amount := m.amount - (m.filledAmount + matchOrders r m) }])
        fs := by
  rw [matchLoop_iter taker isBuy guard fuel r lvl rest ts us fs m ms h0 hg homs]
  simp only [updateMatchedOrder_part m (matchOrders r m) (lvl :: rest) hfill]
  simp

theorem totalOrders_cons_eq (lvl : PriceLevel) (rest : List PriceLevel)
    (m : Order) (ms : List Order) (homs : lvl.orders = m :: ms) :
    totalOrders (lvl :: rest) = ms.length + 1 + totalOrders rest := by
  simp [totalOrders, flatPairs_cons, homs]
  ring

theorem ladderIds_cons (lvl : PriceLevel) (rest : List PriceLevel) :
    ladderIds (lvl :: rest) = lvl.orders.map Order.id ++ ladderIds rest := by
  simp [ladderIds, flatOrders_cons]

theorem totalOrders_cons (lvl : PriceLevel) (rest : List PriceLevel) :
    totalOrders (lvl :: rest) = lvl.orders.length + totalOrders rest := by
  simp [totalOrders, flatPairs_cons]

/-- Complete characterisation of one matching walk over a well-formed
ladder: the result lists are extensions of the accumulators; the emitted
trades carry, in order, the `(level price, maker id)` pairs of the first
`k` resting orders in walk order; the remaining amount decreases by the
sum of the trade amounts and never goes negative; the surviving ladder's
price list is a suffix of the original one and remains well-formed; and
when remaining amount is left the walk stopped because the ladder is
exhausted or the price guard failed at the new best level. -/
theorem matchLoop_walk (taker : Order) (isBuy : Bool) (guard : ℚ → Bool) :
    ∀ (fuel : ℕ) (r : ℚ) (ladder : List PriceLevel) (ts : List Trade)
      (us fs : List Order) (out : LoopOut),
      matchLoop taker isBuy guard fuel r ladder ts us fs = out →
      totalOrders ladder < fuel → LevelsOk ladder → IdsNodup ladder →
      ∃ k newT newU newF j,
        out.trades = ts ++ newT ∧
        out.updated = us ++ newU ∧
        out.filled = fs ++ newF ∧
        newT.map (fun t => (t.price, if isBuy then t.sellOrderId else t.buyOrderId))
          = ((flatPairs ladder).take k).map (fun q => (q.1, q.2.id)) ∧
        out.r = r - (newT.map Trade.amount).sum ∧
        (0 ≤ r → 0 ≤ out.r) ∧
        out.ladder.map PriceLevel.price = (ladder.map PriceLevel.price).drop j ∧
        LevelsOk out.ladder ∧
        IdsNodup out.ladder ∧
        (0 < out.r → out.ladder = [] ∨
          ∃ lvl rest, out.ladder = lvl :: rest ∧ guard lvl.price = false) := by
  intro fuel
  induction fuel with
  | zero =>
      intro r ladder ts us fs out hout hfuel hlv hnd
      exact absurd hfuel (Nat.not_lt_zero _)
  | succ fuel ih =>
      intro r ladder ts us fs out hout hfuel hlv hnd
      by_cases h0 : 0 < r
      · cases ladder with
        | nil =>
            rw [matchLoop_nil taker isBuy guard fuel r ts us fs h0] at hout
            subst hout
            exact ⟨0, [], [], [], 0, by simp, by simp, by simp, by simp, by simp,
              fun h => h, by simp, hlv, hnd, fun _ => Or.inl rfl⟩
        | cons lvl rest =>
            cases hguard : guard lvl.price with
            | false =>
                rw [matchLoop_guard_stop taker isBuy guard fuel r lvl rest ts us fs h0 hguard]
                  at hout
                subst hout
                exact ⟨0, [], [], [], 0, by simp, by simp, by simp, by simp, by simp,
                  fun h => h, by simp, hlv, hnd,
                  fun _ => Or.inr ⟨lvl, rest, rfl, hguard⟩⟩
            | true =>
                obtain ⟨⟨hne, hprices⟩, hlv_rest⟩ := levelsOk_cons hlv
                obtain ⟨m, ms, homs⟩ := List.exists_cons_of_ne_nil hne
                obtain ⟨hnmem, hnd_tail⟩ := idsNodup_cons homs hnd
                have hmp : m.price = lvl.price := hprices m (by rw [homs]; simp)
                have hcnt := totalOrders_cons_eq lvl rest m ms homs
                have hft : ∀ t : Trade,
                    t = (if isBuy then createTrade taker m lvl.price (matchOrders r m)
                         else createTrade m taker lvl.price (matchOrders r m)) →
                    (t.price, if isBuy then t.sellOrderId else t.buyOrderId)
                      = (lvl.price, m.id) ∧ t.amount = matchOrders r m := by
                  intro t ht
                  cases isBuy <;> simp [ht, createTrade]
                by_cases hfill : m.amount ≤ m.filledAmount + matchOrders r m
                · -- the maker becomes fully filled and is popped from its level
                  rw [matchLoop_iter_fill taker isBuy guard fuel r lvl rest ts us fs m ms
                    h0 hguard homs hfill] at hout
                  have hrm := removeFromLadder_head lvl rest
                    { m with filledAmount := m.filledAmount + matchOrders r m, status := 3 }
                    m ms (by simpa using hmp.symm) homs rfl
                  have hr' : (0:ℚ) ≤ r - matchOrders r m :=
                    sub_nonneg.mpr (matchOrders_le_left r m)
                  by_cases hms : ms = []
                  · subst hms
                    rw [hrm] at hout
                    simp only [List.isEmpty_nil, if_true] at hout
                    have hfuel' : totalOrders rest < fuel := by omega
                    have hnd' : IdsNodup rest := by
                      unfold IdsNodup
                      simpa using hnd_tail
                    obtain ⟨k', newT', newU', newF', j', c1, c2, c3, c4, c5, c6, c7, c8, c9, c10⟩ :=
                      ih (r - matchOrders r m) rest _ us _ out hout hfuel' hlv_rest hnd'
                    refine ⟨k' + 1,
                      (if isBuy then createTrade taker m lvl.price (matchOrders r m)
                       else createTrade m taker lvl.price (matchOrders r m)) :: newT',
                      newU',
                      { m with filledAmount := m.filledAmount + matchOrders r m, status := 3 }
                        :: newF',
                      j' + 1, ?_, c2, ?_, ?_, ?_, ?_, ?_, c8, c9, c10⟩
                    · rw [c1]; simp
                    · rw [c3]; simp
                    · simp only [List.map_cons]
                      rw [(hft _ rfl).1, c4]
                      have hfp : flatPairs (lvl :: rest) = (lvl.price, m) :: flatPairs rest := by
                        simp [flatPairs_cons, homs]
                      rw [hfp]
                      simp
                    · rw [c5]
                      simp only [List.map_cons, List.sum_cons]
                      rw [show ((if isBuy then createTrade taker m lvl.price (matchOrders r m)
                        else createTrade m taker lvl.price (matchOrders r m)) : Trade).amount
                        = matchOrders r m from (hft _ rfl).2]
                      ring
                    · intro _; exact c6 hr'
                    · rw [c7]
                      simp [List.drop_succ_cons]
                  · have hmse : ¬ (ms.isEmpty = true) := by
                      simpa [List.isEmpty_iff] using hms
                    rw [hrm, if_neg hmse] at hout
                    have hgen : ∀ tq : ℚ,
                        LevelsOk ((⟨lvl.price, ms, tq⟩ : PriceLevel) :: rest) ∧
                        IdsNodup ((⟨lvl.price, ms, tq⟩ : PriceLevel) :: rest) ∧
                        totalOrders ((⟨lvl.price, ms, tq⟩ : PriceLevel) :: rest) < fuel ∧
                        flatPairs ((⟨lvl.price, ms, tq⟩ : PriceLevel) :: rest)
                          = ms.map (fun o => (lvl.price, o)) ++ flatPairs rest ∧
                        ((⟨lvl.price, ms, tq⟩ : PriceLevel) :: rest).map PriceLevel.price
                          = (lvl :: rest).map PriceLevel.price := by
                      intro tq
                      refine ⟨?_, ?_, ?_, by simp [flatPairs_cons], by simp⟩
                      · intro l hl
                        rcases List.mem_cons.mp hl with hl1 | hl2
                        · subst hl1
                          exact ⟨hms, fun o ho =>
                            hprices o (by rw [homs]; exact List.mem_cons_of_mem _ ho)⟩
                        · exact hlv_rest l hl2
                      · unfold IdsNodup
                        rw [ladderIds_cons]
                        exact hnd_tail
                      · rw [totalOrders_cons]
                        simp only []
                        omega
                    obtain ⟨hlv', hnd', hfuel', hfp', hpr'⟩ := hgen
                      (lvl.total - ({ m with filledAmount := m.filledAmount + matchOrders r m, status := 3 } : Order).amount)
                    obtain ⟨k', newT', newU', newF', j', c1, c2, c3, c4, c5, c6, c7, c8, c9, c10⟩ :=
                      ih (r - matchOrders r m) _ _ us _ out hout hfuel' hlv' hnd'
                    refine ⟨k' + 1,
                      (if isBuy then createTrade taker m lvl.price (matchOrders r m)
                       else createTrade m taker lvl.price (matchOrders r m)) :: newT',
                      newU',
                      { m with filledAmount := m.filledAmount + matchOrders r m, status := 3 }
                        :: newF',
                      j', ?_, c2, ?_, ?_, ?_, ?_, ?_, c8, c9, c10⟩
                    · rw [c1]; simp
                    · rw [c3]; simp
                    · simp only [List.map_cons]
                      rw [(hft _ rfl).1, c4, hfp']
                      have hfp : flatPairs (lvl :: rest)
                          = (lvl.price, m) :: (ms.map (fun o => (lvl.price, o)) ++ flatPairs rest) := by
                        simp [flatPairs_cons, homs]
                      rw [hfp]
                      simp
                    · rw [c5]
                      simp only [List.map_cons, List.sum_cons]
                      rw [show ((if isBuy then createTrade taker m lvl.price (matchOrders r m)
                        else createTrade m taker lvl.price (matchOrders r m)) : Trade).amount
                        = matchOrders r m from (hft _ rfl).2]
                      ring
                    · intro _; exact c6 hr'
                    · rw [c7, hpr']
                · -- the maker is only partially filled: the taker is exhausted
                  have hxr : matchOrders r m = r := matchOrders_eq_of_part r m hfill
                  rw [matchLoop_iter_part taker isBuy guard fuel r lvl rest ts us fs m ms
                    h0 hguard homs hfill] at hout
                  have hnmem' : m.id ∉ ms.map Order.id :=
                    fun h => hnmem (List.mem_append_left _ h)
                  have hupd := updateLadderAmount_head lvl rest
                    { m with filledAmount := m.filledAmount + matchOrders r m, status := 2 }
                    m ms (m.amount - (m.filledAmount + matchOrders r m))
                    (by simpa using hmp.symm) homs rfl hnmem'
                  rw [hupd] at hout
                  have hz : r - matchOrders r m = 0 := by rw [hxr]; ring
                  rw [hz, matchLoop_of_nonpos taker isBuy guard fuel 0 _ _ _ _
                    (by norm_num)] at hout
                  subst hout
                  refine ⟨1,
                    [if isBuy then createTrade taker m lvl.price (matchOrders r m)
                     else createTrade m taker lvl.price (matchOrders r m)],
                    [{ m with
                       filledAmount := m.filledAmount + matchOrders r m
                       status := 2
                       amount := m.amount - (m.filledAmount + matchOrders r m) }],
                    [], 0, rfl, rfl, by simp, ?_, ?_, ?_, ?_, ?_, ?_, ?_⟩
                  · simp only [List.map_cons, List.map_nil]
                    rw [(hft _ rfl).1]
                    have hfp : flatPairs (lvl :: rest)
                        = (lvl.price, m) :: (ms.map (fun o => (lvl.price, o)) ++ flatPairs rest) := by
                      simp [flatPairs_cons, homs]
                    rw [hfp]
                    simp
                  · simp only [List.map_cons, List.map_nil, List.sum_cons, List.sum_nil]
                    rw [show ((if isBuy then createTrade taker m lvl.price (matchOrders r m)
                      else createTrade m taker lvl.price (matchOrders r m)) : Trade).amount
                      = matchOrders r m from (hft _ rfl).2]
                    rw [hxr]
                    ring
                  · intro _; norm_num
                  · simp
                  · intro l hl
                    rcases List.mem_cons.mp hl with hl1 | hl2
                    · subst hl1
                      refine ⟨by simp, ?_⟩
                      intro o ho
                      rcases List.mem_cons.mp ho with ho1 | ho2
                      · rw [ho1]; simpa using hmp
                      · exact hprices o (by rw [homs]; exact List.mem_cons_of_mem _ ho2)
                    · exact hlv_rest l hl2
                  · unfold IdsNodup
                    rw [ladderIds_cons]
                    simp only [List.map_cons, List.cons_append]
                    exact List.nodup_cons.mpr ⟨hnmem, hnd_tail⟩
                  · intro hcon
                    norm_num at hcon
      · rw [matchLoop_of_nonpos taker isBuy guard (fuel + 1) r ladder ts us fs h0] at hout
        subst hout
        exact ⟨0, [], [], [], 0, by simp, by simp, by simp, by simp, by simp,
          fun h => h, by simp, hlv, hnd, fun h => absurd h h0⟩

/-- Bounds along one matching walk, when every resting order of the walked
ladder satisfies `0 ≤ filled_amount ≤ amount`: every maker appended to the
result lists keeps a filled amount that only grew and stays within the
maker's pre-walk `[0, amount]` range, and the taker's remaining amount
never increases. -/
theorem matchLoop_bounds (taker : Order) (isBuy : Bool) (guard : ℚ → Bool) :
    ∀ (fuel : ℕ) (r : ℚ) (ladder : List PriceLevel) (ts : List Trade)
      (us fs : List Order) (out : LoopOut),
      matchLoop taker isBuy guard fuel r ladder ts us fs = out →
      totalOrders ladder < fuel → LevelsOk ladder → IdsNodup ladder →
      (∀ q ∈ flatPairs ladder, 0 ≤ q.2.filledAmount ∧ q.2.filledAmount ≤ q.2.amount) →
      0 ≤ r →
      ∃ newU newF,
        out.updated = us ++ newU ∧
        out.filled = fs ++ newF ∧
        out.r ≤ r ∧
        ∀ o' ∈ newU ++ newF, ∃ q ∈ flatPairs ladder,
          q.2.id = o'.id ∧ q.2.filledAmount ≤ o'.filledAmount ∧
          0 ≤ o'.filledAmount ∧ o'.filledAmount ≤ q.2.amount := by
  intro fuel
  induction fuel with
  | zero =>
      intro r ladder ts us fs out hout hfuel hlv hnd hpos hr
      exact absurd hfuel (Nat.not_lt_zero _)
  | succ fuel ih =>
      intro r ladder ts us fs out hout hfuel hlv hnd hpos hr
      by_cases h0 : 0 < r
      · cases ladder with
        | nil =>
            rw [matchLoop_nil taker isBuy guard fuel r ts us fs h0] at hout
            subst hout
            exact ⟨[], [], by simp, by simp, le_refl r, by simp⟩
        | cons lvl rest =>
            cases hguard : guard lvl.price with
            | false =>
                rw [matchLoop_guard_stop taker isBuy guard fuel r lvl rest ts us fs h0 hguard]
                  at hout
                subst hout
                exact ⟨[], [], by simp, by simp, le_refl r, by simp⟩
            | true =>
                obtain ⟨⟨hne, hprices⟩, hlv_rest⟩ := levelsOk_cons hlv
                obtain ⟨m, ms, homs⟩ := List.exists_cons_of_ne_nil hne
                obtain ⟨hnmem, hnd_tail⟩ := idsNodup_cons homs hnd
                have hmp : m.price = lvl.price := hprices m (by rw [homs]; simp)
                have hcnt := totalOrders_cons_eq lvl rest m ms homs
                have hmem0 : ((lvl.price, m) : ℚ × Order) ∈ flatPairs (lvl :: rest) := by
                  rw [flatPairs_cons, homs]
                  simp
                have hm0 := hpos (lvl.price, m) hmem0
                have havail : (0:ℚ) ≤ m.amount - m.filledAmount := by
                  have := hm0.2
                  simp only at this
                  linarith
                have hx0 : (0:ℚ) ≤ matchOrders r m :=
                  le_min (le_of_lt h0) havail
                have hxa : matchOrders r m ≤ m.amount - m.filledAmount :=
                  min_le_right _ _
                have hr' : (0:ℚ) ≤ r - matchOrders r m :=
                  sub_nonneg.mpr (matchOrders_le_left r m)
                have hsub : r - matchOrders r m ≤ r := by linarith
                by_cases hfill : m.amount ≤ m.filledAmount + matchOrders r m
                · rw [matchLoop_iter_fill taker isBuy guard fuel r lvl rest ts us fs m ms
                    h0 hguard homs hfill] at hout
                  have hrm := removeFromLadder_head lvl rest
                    { m with filledAmount := m.filledAmount + matchOrders r m, status := 3 }
                    m ms (by simpa using hmp.symm) homs rfl
                  have hmaker : ∀ o' : Order,
                      o' = ({ m with filledAmount := m.filledAmount + matchOrders r m, status := 3 } : Order) →
                      ∃ q ∈ flatPairs (lvl :: rest),
                        q.2.id = o'.id ∧ q.2.filledAmount ≤ o'.filledAmount ∧
                        0 ≤ o'.filledAmount ∧ o'.filledAmount ≤ q.2.amount := by
                    intro o' ho'
                    refine ⟨(lvl.price, m), hmem0, by rw [ho'], by rw [ho']; simp; linarith,
                      by rw [ho']; simp; linarith [hm0.1], by rw [ho']; simp; linarith⟩
                  by_cases hms : ms = []
                  · subst hms
                    rw [hrm] at hout
                    simp only [List.isEmpty_nil, if_true] at hout
                    have hfuel' : totalOrders rest < fuel := by omega
                    have hnd' : IdsNodup rest := by
                      unfold IdsNodup
                      simpa using hnd_tail
                    have hpos' : ∀ q ∈ flatPairs rest,
                        0 ≤ q.2.filledAmount ∧ q.2.filledAmount ≤ q.2.amount := by
                      intro q hq
                      refine hpos q ?_
                      rw [flatPairs_cons, homs]
                      simp [hq]
                    obtain ⟨newU', newF', c1, c2, c3, c4⟩ :=
                      ih (r - matchOrders r m) rest _ us _ out hout hfuel' hlv_rest hnd'
                        hpos' hr'
                    refine ⟨newU',
                      { m with filledAmount := m.filledAmount + matchOrders r m, status := 3 }
                        :: newF', c1, by rw [c2]; simp, le_trans c3 hsub, ?_⟩
                    intro o' ho'
                    rcases List.mem_append.mp ho' with hu | hf
                    · obtain ⟨q, hq, hqs⟩ := c4 o' (List.mem_append_left _ hu)
                      exact ⟨q, by rw [flatPairs_cons, homs]; simp [hq], hqs⟩
                    · rcases List.mem_cons.mp hf with hf1 | hf2
                      · exact hmaker o' hf1
                      · obtain ⟨q, hq, hqs⟩ := c4 o' (List.mem_append_right _ hf2)
                        exact ⟨q, by rw [flatPairs_cons, homs]; simp [hq], hqs⟩
                  · have hmse : ¬ (ms.isEmpty = true) := by
                      simpa [List.isEmpty_iff] using hms
                    rw [hrm, if_neg hmse] at hout
                    have hlv' : LevelsOk ((⟨lvl.price, ms,
                        lvl.total - ({ m with filledAmount := m.filledAmount + matchOrders r m, status := 3 } : Order).amount⟩ : PriceLevel) :: rest) := by
                      intro l hl
                      rcases List.mem_cons.mp hl with hl1 | hl2
                      · subst hl1
                        exact ⟨hms, fun o ho =>
                          hprices o (by rw [homs]; exact List.mem_cons_of_mem _ ho)⟩
                      · exact hlv_rest l hl2
                    have hnd' : IdsNodup ((⟨lvl.price, ms,
                        lvl.total - ({ m with filledAmount := m.filledAmount + matchOrders r m, status := 3 } : Order).amount⟩ : PriceLevel) :: rest) := by
                      unfold IdsNodup
                      rw [ladderIds_cons]
                      exact hnd_tail
                    have hfuel' : totalOrders ((⟨lvl.price, ms,
                        lvl.total - ({ m with filledAmount := m.filledAmount + matchOrders r m, status := 3 } : Order).amount⟩ : PriceLevel) :: rest) < fuel := by
                      rw [totalOrders_cons]
                      simp only []
                      omega
                    have hfp' : flatPairs ((⟨lvl.price, ms,
                        lvl.total - ({ m with filledAmount := m.filledAmount + matchOrders r m, status := 3 } : Order).amount⟩ : PriceLevel) :: rest)
                        = ms.map (fun o => (lvl.price, o)) ++ flatPairs rest := by
                      simp [flatPairs_cons]
                    have hsubmem : ∀ q : ℚ × Order,
                        q ∈ ms.map (fun o => (lvl.price, o)) ++ flatPairs rest →
                        q ∈ flatPairs (lvl :: rest) := by
                      intro q hq
                      rw [flatPairs_cons, homs]
                      simp only [List.map_cons, List.cons_append, List.mem_cons]
                      exact Or.inr (by simpa using hq)
                    have hpos' : ∀ q ∈ flatPairs ((⟨lvl.price, ms,
                        lvl.total - ({ m with filledAmount := m.filledAmount + matchOrders r m, status := 3 } : Order).amount⟩ : PriceLevel) :: rest),
                        0 ≤ q.2.filledAmount ∧ q.2.filledAmount ≤ q.2.amount := by
                      intro q hq
                      rw [hfp'] at hq
                      exact hpos q (hsubmem q hq)
                    obtain ⟨newU', newF', c1, c2, c3, c4⟩ :=
                      ih (r - matchOrders r m) _ _ us _ out hout hfuel' hlv' hnd' hpos' hr'
                    refine ⟨newU',
                      { m with filledAmount := m.filledAmount + matchOrders r m, status := 3 }
                        :: newF', c1, by rw [c2]; simp, le_trans c3 hsub, ?_⟩
                    intro o' ho'
                    rcases List.mem_append.mp ho' with hu | hf
                    · obtain ⟨q, hq, hqs⟩ := c4 o' (List.mem_append_left _ hu)
                      rw [hfp'] at hq
                      exact ⟨q, hsubmem q hq, hqs⟩
                    · rcases List.mem_cons.mp hf with hf1 | hf2
                      · exact hmaker o' hf1
                      · obtain ⟨q, hq, hqs⟩ := c4 o' (List.mem_append_right _ hf2)
                        rw [hfp'] at hq
                        exact ⟨q, hsubmem q hq, hqs⟩
                · -- partial maker, taker exhausted
                  have hxr : matchOrders r m = r := matchOrders_eq_of_part r m hfill
                  rw [matchLoop_iter_part taker isBuy guard fuel r lvl rest ts us fs m ms
                    h0 hguard homs hfill] at hout
                  have hnmem' : m.id ∉ ms.map Order.id :=
                    fun h => hnmem (List.mem_append_left _ h)
                  have hupd := updateLadderAmount_head lvl rest
                    { m with filledAmount := m.filledAmount + matchOrders r m, status := 2 }
                    m ms (m.amount - (m.filledAmount + matchOrders r m))
                    (by simpa using hmp.symm) homs rfl hnmem'
                  rw [hupd] at hout
                  have hz : r - matchOrders r m = 0 := by rw [hxr]; ring
                  rw [hz, matchLoop_of_nonpos taker isBuy guard fuel 0 _ _ _ _
                    (by norm_num)] at hout
                  subst hout
                  refine ⟨[{ m with
                      filledAmount := m.filledAmount + matchOrders r m
                      status := 2
                      amount := m.amount - (m.filledAmount + matchOrders r m) }],
                    [], rfl, by simp, hr, ?_⟩
                  intro o' ho'
                  have ho'' : o' = ({ m with
                      filledAmount := m.filledAmount + matchOrders r m
                      status := 2
                      amount := m.amount - (m.filledAmount + matchOrders r m) } : Order) := by
                    simpa using ho'
                  have hlt : m.filledAmount + matchOrders r m < m.amount := lt_of_not_le hfill
                  refine ⟨(lvl.price, m), hmem0, by rw [ho''], by rw [ho'']; simp; linarith,
                    by rw [ho'']; simp; linarith [hm0.1], by rw [ho'']; simp; linarith⟩
      · rw [matchLoop_of_nonpos taker isBuy guard (fuel + 1) r ladder ts us fs h0] at hout
        subst hout
        exact ⟨[], [], by simp, by simp, le_refl r, by simp⟩

/-! ## Bridge lemmas towards the claim theorems -/

theorem mem_flatOrders {ladder : List PriceLevel} {o : Order} :
    o ∈ flatOrders ladder ↔ ∃ lvl ∈ ladder, o ∈ lvl.orders := by
  simp [flatOrders, List.mem_flatMap]

theorem head?_of_mem_self {α : Type} {l : List α} {a : α} (h : l.head? = some a) :
    a ∈ l := by
  cases l with
  | nil => simp at h
  | cons x t =>
      simp only [List.head?_cons, Option.some.injEq] at h
      rw [← h]
      simp

theorem take_length_take {α : Type} (l : List α) (k : ℕ) :
    l.take (l.take k).length = l.take k := by
  rw [List.length_take]
  rcases le_total k l.length with h | h
  · rw [min_eq_left h]
  · rw [min_eq_right h, List.take_length, List.take_of_length_le h]

theorem sorted_asks_head_le {ps : List ℚ} (hs : sortedBy askBefore ps = true)
    {p : ℚ} (hh : ps.head? = some p) {j : ℕ} {q : ℚ} (hq : q ∈ ps.drop j) : p ≤ q :=
  sorted_head_rel (R := (· ≤ ·))
    (fun a b h => le_of_lt (by simpa [askBefore] using h))
    (fun a => le_refl a) (fun h1 h2 => le_trans h1 h2)
    ps hs p hh q (List.mem_of_mem_drop hq)

theorem sorted_bids_head_ge {ps : List ℚ} (hs : sortedBy bidBefore ps = true)
    {p : ℚ} (hh : ps.head? = some p) {j : ℕ} {q : ℚ} (hq : q ∈ ps.drop j) : q ≤ p :=
  sorted_head_rel (R := fun a b => b ≤ a)
    (fun a b h => le_of_lt (by simpa [bidBefore] using h))
    (fun a => le_refl a) (fun h1 h2 => le_trans h2 h1)
    ps hs p hh q (List.mem_of_mem_drop hq)

/-- The best bid after a bid-side insert is the maximum of the inserted
price and the previous best bid (or the inserted price on an empty side). -/
theorem addToLadder_bid_head (ladder : List PriceLevel) (o : Order) :
    ∃ hl, (addToLadder bidBefore ladder o).head? = some hl ∧
      ((ladder = [] ∧ hl.price = o.price) ∨
       (∃ h0, ladder.head? = some h0 ∧ hl.price = max o.price h0.price)) := by
  cases ladder with
  | nil =>
      refine ⟨(newPriceLevel o.price).addOrder o, rfl, Or.inl ⟨rfl, ?_⟩⟩
      simp [newPriceLevel, PriceLevel.addOrder]
  | cons l rest =>
      by_cases he : l.price = o.price
      · refine ⟨l.addOrder o, by simp [addToLadder, he], Or.inr ⟨l, rfl, ?_⟩⟩
        simp [PriceLevel.addOrder, he, max_self]
      · by_cases hb : bidBefore o.price l.price = true
        · refine ⟨(newPriceLevel o.price).addOrder o,
            by simp [addToLadder, he, hb], Or.inr ⟨l, rfl, ?_⟩⟩
          have : l.price < o.price := by simpa [bidBefore] using hb
          simp [newPriceLevel, PriceLevel.addOrder, max_eq_left (le_of_lt this)]
        · refine ⟨l, by simp [addToLadder, he, hb], Or.inr ⟨l, rfl, ?_⟩⟩
          have : ¬ l.price < o.price := by simpa [bidBefore] using hb
          have hlt : o.price < l.price := lt_of_le_of_ne (not_lt.mp this) (fun hc => he hc.symm)
          simp [max_eq_right (le_of_lt hlt)]

/-- The best ask after an ask-side insert is the minimum of the inserted
price and the previous best ask (or the inserted price on an empty side). -/
theorem addToLadder_ask_head (ladder : List PriceLevel) (o : Order) :
    ∃ hl, (addToLadder askBefore ladder o).head? = some hl ∧
      ((ladder = [] ∧ hl.price = o.price) ∨
       (∃ h0, ladder.head? = some h0 ∧ hl.price = min o.price h0.price)) := by
  cases ladder with
  | nil =>
      refine ⟨(newPriceLevel o.price).addOrder o, rfl, Or.inl ⟨rfl, ?_⟩⟩
      simp [newPriceLevel, PriceLevel.addOrder]
  | cons l rest =>
      by_cases he : l.price = o.price
      · refine ⟨l.addOrder o, by simp [addToLadder, he], Or.inr ⟨l, rfl, ?_⟩⟩
        simp [PriceLevel.addOrder, he, min_self]
      · by_cases hb : askBefore o.price l.price = true
        · refine ⟨(newPriceLevel o.price).addOrder o,
            by simp [addToLadder, he, hb], Or.inr ⟨l, rfl, ?_⟩⟩
          have : o.price < l.price := by simpa [askBefore] using hb
          simp [newPriceLevel, PriceLevel.addOrder, min_eq_left (le_of_lt this)]
        · refine ⟨l, by simp [addToLadder, he, hb], Or.inr ⟨l, rfl, ?_⟩⟩
          have : ¬ o.price < l.price := by simpa [askBefore] using hb
          have hlt : l.price < o.price := lt_of_le_of_ne (not_lt.mp this) he
          simp [min_eq_right (le_of_lt hlt)]

theorem processOrder_types {o : Order} {b : OrderBook} {out : ProcOut}
    (h : processOrder o b = Except.ok out) : o.otype = 1 ∨ o.otype = 2 := by
  unfold processOrder at h
  by_cases h1 : o.otype = 1
  · exact Or.inl h1
  · rw [if_neg h1] at h
    by_cases h2 : o.otype = 2
    · exact Or.inr h2
    · rw [if_neg h2] at h
      exact absurd h (by simp)

theorem processOrder_limit {o : Order} {b : OrderBook} {out : ProcOut}
    (h : processOrder o b = Except.ok out) (ht : o.otype = 1) :
    processLimitOrder o b = out := by
  unfold processOrder at h
  rw [if_pos ht] at h
  simpa using h

theorem processOrder_market {o : Order} {b : OrderBook} {out : ProcOut}
    (h : processOrder o b = Except.ok out) (ht : o.otype = 2) (ht1 : ¬ o.otype = 1) :
    processMarketOrder o b = out := by
  unfold processOrder at h
  rw [if_neg ht1, if_pos ht] at h
  simpa using h

theorem updateCurrentOrder_trades (o : Order) (r : ℚ) (bk : OrderBook)
    (ts : List Trade) (us fs : List Order) :
    (updateCurrentOrder o r bk ts us fs).result.trades = ts := by
  simp only [updateCurrentOrder]
  split_ifs <;> rfl

theorem processLimitOrder_buy (o : Order) (b : OrderBook) (hside : o.side = 1) :
    processLimitOrder o b =
      updateCurrentOrder o
        (matchLoop o true (fun p => decide (p ≤ o.price))
          (totalOrders b.asks + 1) o.amount b.asks [] [] []).r
        ({ b with asks := (matchLoop o true (fun p => decide (p ≤ o.price))
          (totalOrders b.asks + 1) o.amount b.asks [] [] []).ladder })
        (matchLoop o true (fun p => decide (p ≤ o.price))
          (totalOrders b.asks + 1) o.amount b.asks [] [] []).trades
        (matchLoop o true (fun p => decide (p ≤ o.price))
          (totalOrders b.asks + 1) o.amount b.asks [] [] []).updated
        (matchLoop o true (fun p => decide (p ≤ o.price))
          (totalOrders b.asks + 1) o.amount b.asks [] [] []).filled := by
  unfold processLimitOrder
  rw [if_pos hside]

theorem processLimitOrder_sell (o : Order) (b : OrderBook) (hside : ¬ o.side = 1) :
    processLimitOrder o b =
      updateCurrentOrder o
        (matchLoop o false (fun p => decide (o.price ≤ p))
          (totalOrders b.bids + 1) o.amount b.bids [] [] []).r
        ({ b with bids := (matchLoop o false (fun p => decide (o.price ≤ p))
          (totalOrders b.bids + 1) o.amount b.bids [] [] []).ladder })
        (matchLoop o false (fun p => decide (o.price ≤ p))
          (totalOrders b.bids + 1) o.amount b.bids [] [] []).trades
        (matchLoop o false (fun p => decide (o.price ≤ p))
          (totalOrders b.bids + 1) o.amount b.bids [] [] []).updated
        (matchLoop o false (fun p => decide (o.price ≤ p))
          (totalOrders b.bids + 1) o.amount b.bids [] [] []).filled := by
  unfold processLimitOrder
  rw [if_neg hside]

theorem processMarketOrder_buy (o : Order) (b : OrderBook) (hside : o.side = 1) :
    processMarketOrder o b =
      (if (matchLoop o true (fun _ => true)
            (totalOrders b.asks + 1) o.amount b.asks [] [] []).r < o.amount then
        if (matchLoop o true (fun _ => true)
            (totalOrders b.asks + 1) o.amount b.asks [] [] []).r = 0 then
          ⟨{ o with filledAmount := o.filledAmount + (o.amount -
              (matchLoop o true (fun _ => true)
                (totalOrders b.asks + 1) o.amount b.asks [] [] []).r), status := 3 },
           { b with asks := (matchLoop o true (fun _ => true)
              (totalOrders b.asks + 1) o.amount b.asks [] [] []).ladder },
           ⟨(matchLoop o true (fun _ => true)
              (totalOrders b.asks + 1) o.amount b.asks [] [] []).trades,
            (matchLoop o true (fun _ => true)
              (totalOrders b.asks + 1) o.amount b.asks [] [] []).updated ++
              [{ o with filledAmount := o.filledAmount + (o.amount -
                (matchLoop o true (fun _ => true)
                  (totalOrders b.asks + 1) o.amount b.asks [] [] []).r), status := 3 }],
            (matchLoop o true (fun _ => true)
              (totalOrders b.asks + 1) o.amount b.asks [] [] []).filled ++
              [{ o with filledAmount := o.filledAmount + (o.amount -
                (matchLoop o true (fun _ => true)
                  (totalOrders b.asks + 1) o.amount b.asks [] [] []).r), status := 3 }]⟩⟩
        else
          ⟨{ o with filledAmount := o.filledAmount + (o.amount -
              (matchLoop o true (fun _ => true)
                (totalOrders b.asks + 1) o.amount b.asks [] [] []).r), status := 4 },
           { b with asks := (matchLoop o true (fun _ => true)
              (totalOrders b.asks + 1) o.amount b.asks [] [] []).ladder },
           ⟨(matchLoop o true (fun _ => true)
              (totalOrders b.asks + 1) o.amount b.asks [] [] []).trades,
            (matchLoop o true (fun _ => true)
              (totalOrders b.asks + 1) o.amount b.asks [] [] []).updated ++
              [{ o with filledAmount := o.filledAmount + (o.amount -
                (matchLoop o true (fun _ => true)
                  (totalOrders b.asks + 1) o.amount b.asks [] [] []).r), status := 4 }],
            (matchLoop o true (fun _ => true)
              (totalOrders b.asks + 1) o.amount b.asks [] [] []).filled⟩⟩
      else
        ⟨o, { b with asks := (matchLoop o true (fun _ => true)
            (totalOrders b.asks + 1) o.amount b.asks [] [] []).ladder },
         ⟨(matchLoop o true (fun _ => true)
            (totalOrders b.asks + 1) o.amount b.asks [] [] []).trades,
          (matchLoop o true (fun _ => true)
            (totalOrders b.asks + 1) o.amount b.asks [] [] []).updated,
          (matchLoop o true (fun _ => true)
            (totalOrders b.asks + 1) o.amount b.asks [] [] []).filled⟩⟩) := by
  unfold processMarketOrder
  rw [if_pos hside]

theorem processMarketOrder_sell (o : Order) (b : OrderBook) (hside : ¬ o.side = 1) :
    processMarketOrder o b =
      (if (matchLoop o false (fun _ => true)
            (totalOrders b.bids + 1) o.amount b.bids [] [] []).r < o.amount then
        if (matchLoop o false (fun _ => true)
            (totalOrders b.bids + 1) o.amount b.bids [] [] []).r = 0 then
          ⟨{ o with filledAmount := o.filledAmount + (o.amount -
              (matchLoop o false (fun _ => true)
                (totalOrders b.bids + 1) o.amount b.bids [] [] []).r), status := 3 },
           { b with bids := (matchLoop o false (fun _ => true)
              (totalOrders b.bids + 1) o.amount b.bids [] [] []).ladder },
           ⟨(matchLoop o false (fun _ => true)
              (totalOrders b.bids + 1) o.amount b.bids [] [] []).trades,
            (matchLoop o false (fun _ => true)
              (totalOrders b.bids + 1) o.amount b.bids [] [] []).updated ++
              [{ o with filledAmount := o.filledAmount + (o.amount -
                (matchLoop o false (fun _ => true)
                  (totalOrders b.bids + 1) o.amount b.bids [] [] []).r), status := 3 }],
            (matchLoop o false (fun _ => true)
              (totalOrders b.bids + 1) o.amount b.bids [] [] []).filled ++
              [{ o with filledAmount := o.filledAmount + (o.amount -
                (matchLoop o false (fun _ => true)
                  (totalOrders b.bids + 1) o.amount b.bids [] [] []).r), status := 3 }]⟩⟩
        else
          ⟨{ o with filledAmount := o.filledAmount + (o.amount -
              (matchLoop o false (fun _ => true)
                (totalOrders b.bids + 1) o.amount b.bids [] [] []).r), status := 4 },
           { b with bids := (matchLoop o false (fun _ => true)
              (totalOrders b.bids + 1) o.amount b.bids [] [] []).ladder },
           ⟨(matchLoop o false (fun _ => true)
              (totalOrders b.bids + 1) o.amount b.bids [] [] []).trades,
            (matchLoop o false (fun _ => true)
              (totalOrders b.bids + 1) o.amount b.bids [] [] []).updated ++
              [{ o with filledAmount := o.filledAmount + (o.amount -
                (matchLoop o false (fun _ => true)
                  (totalOrders b.bids + 1) o.amount b.bids [] [] []).r), status := 4 }],
            (matchLoop o false (fun _ => true)
              (totalOrders b.bids + 1) o.amount b.bids [] [] []).filled⟩⟩
      else
        ⟨o, { b with bids := (matchLoop o false (fun _ => true)
            (totalOrders b.bids + 1) o.amount b.bids [] [] []).ladder },
         ⟨(matchLoop o false (fun _ => true)
            (totalOrders b.bids + 1) o.amount b.bids [] [] []).trades,
          (matchLoop o false (fun _ => true)
            (totalOrders b.bids + 1) o.amount b.bids [] [] []).updated,
          (matchLoop o false (fun _ => true)
            (totalOrders b.bids + 1) o.amount b.bids [] [] []).filled⟩⟩) := by
  unfold processMarketOrder
  rw [if_neg hside]

/-- The trades any `ProcessOrder` call emits carry, in emission order, the
`(level price, maker id)` pairs of a walk-order segment of the opposing
ladder. -/
theorem processOrder_trades_pairs (o : Order) (b : OrderBook) (out : ProcOut)
    (hwf : bookWF b) (h : processOrder o b = Except.ok out) :
    ∃ k, out.result.trades.map (fun t => (t.price, tradeMakerId o.side t))
      = ((flatPairs (if o.side = 1 then b.asks else b.bids)).take k).map
          (fun q => (q.1, q.2.id)) := by
  rcases processOrder_types h with ht | ht
  · have hdef := processOrder_limit h ht
    by_cases hside : o.side = 1
    · rw [processLimitOrder_buy o b hside] at hdef
      obtain ⟨k, newT, newU, newF, j, c1, c2, c3, c4, c5, c6, c7, c8, c9, c10⟩ :=
        matchLoop_walk o true (fun p => decide (p ≤ o.price)) (totalOrders b.asks + 1)
          o.amount b.asks [] [] [] _ rfl (Nat.lt_succ_self _) hwf.2.1 hwf.2.2.2.2.2.1
      refine ⟨k, ?_⟩
      rw [if_pos hside, ← hdef, updateCurrentOrder_trades, c1]
      simp only [List.nil_append]
      rw [← c4]
      simp [tradeMakerId, hside]
    · rw [processLimitOrder_sell o b hside] at hdef
      obtain ⟨k, newT, newU, newF, j, c1, c2, c3, c4, c5, c6, c7, c8, c9, c10⟩ :=
        matchLoop_walk o false (fun p => decide (o.price ≤ p)) (totalOrders b.bids + 1)
          o.amount b.bids [] [] [] _ rfl (Nat.lt_succ_self _) hwf.1 hwf.2.2.2.2.1
      refine ⟨k, ?_⟩
      rw [if_neg hside, ← hdef, updateCurrentOrder_trades, c1]
      simp only [List.nil_append]
      rw [← c4]
      simp [tradeMakerId, hside]
  · have ht1 : ¬ o.otype = 1 := by rw [ht]; decide
    have hdef := processOrder_market h ht ht1
    by_cases hside : o.side = 1
    · rw [processMarketOrder_buy o b hside] at hdef
      obtain ⟨k, newT, newU, newF, j, c1, c2, c3, c4, c5, c6, c7, c8, c9, c10⟩ :=
        matchLoop_walk o true (fun _ => true) (totalOrders b.asks + 1)
          o.amount b.asks [] [] [] _ rfl (Nat.lt_succ_self _) hwf.2.1 hwf.2.2.2.2.2.1
      have htr : out.result.trades
          = (matchLoop o true (fun _ => true) (totalOrders b.asks + 1)
              o.amount b.asks [] [] []).trades := by
        rw [← hdef]
        split_ifs <;> rfl
      refine ⟨k, ?_⟩
      rw [if_pos hside, htr, c1]
      simp only [List.nil_append]
      rw [← c4]
      simp [tradeMakerId, hside]
    · rw [processMarketOrder_sell o b hside] at hdef
      obtain ⟨k, newT, newU, newF, j, c1, c2, c3, c4, c5, c6, c7, c8, c9, c10⟩ :=
        matchLoop_walk o false (fun _ => true) (totalOrders b.bids + 1)
          o.amount b.bids [] [] [] _ rfl (Nat.lt_succ_self _) hwf.1 hwf.2.2.2.2.1
      have htr : out.result.trades
          = (matchLoop o false (fun _ => true) (totalOrders b.bids + 1)
              o.amount b.bids [] [] []).trades := by
        rw [← hdef]
        split_ifs <;> rfl
      refine ⟨k, ?_⟩
      rw [if_neg hside, htr, c1]
      simp only [List.nil_append]
      rw [← c4]
      simp [tradeMakerId, hside]

theorem levelsOk_opposing (o : Order) (b : OrderBook) (hwf : bookWF b) :
    LevelsOk (if o.side = 1 then b.asks else b.bids) := by
  by_cases hside : o.side = 1
  · rw [if_pos hside]; exact hwf.2.1
  · rw [if_neg hside]; exact hwf.1

/-- C2: for every trade emitted by `ProcessOrder`, regardless of order
type and side, the trade's price equals the price of the resting (maker)
order it consumed — the maker's level price, which on a well-formed book
is the maker order's own price; the price is never read from the incoming
order. -/
theorem trade_price_is_maker_price (o : Order) (b : OrderBook) (out : ProcOut)
    (hwf : bookWF b) (h : processOrder o b = Except.ok out) :
    ∀ t ∈ out.result.trades,
      ∃ mkr ∈ flatOrders (if o.side = 1 then b.asks else b.bids),
        mkr.id = tradeMakerId o.side t ∧ t.price = mkr.price := by
  obtain ⟨k, hpairs⟩ := processOrder_trades_pairs o b out hwf h
  intro t ht
  have hmem : ((t.price, tradeMakerId o.side t) : ℚ × ℕ) ∈
      ((flatPairs (if o.side = 1 then b.asks else b.bids)).take k).map
        (fun q => (q.1, q.2.id)) := by
    rw [← hpairs]
    exact List.mem_map_of_mem _ ht
  obtain ⟨q, hqtake, hq⟩ := List.mem_map.mp hmem
  have hqmem : q ∈ flatPairs (if o.side = 1 then b.asks else b.bids) :=
    List.take_subset _ _ hqtake
  obtain ⟨lvl, hlvl, hlp, hqo⟩ := mem_flatPairs.mp hqmem
  have hqp : q.2.price = lvl.price := ((levelsOk_opposing o b hwf) lvl hlvl).2 q.2 hqo
  refine ⟨q.2, mem_flatOrders.mpr ⟨lvl, hlvl, hqo⟩, ?_, ?_⟩
  · exact congrArg Prod.snd hq
  · have h1 : q.1 = t.price := congrArg Prod.fst hq
    rw [hqp, hlp]
    exact h1.symm

/-- C3: the sequence of makers consumed by any `ProcessOrder` call is
exactly an initial segment of the opposing ladder flattened in walk order
(strictly better price levels first — asks ascending for a buy, bids
descending for a sell, as the sortedness conjunct states — and FIFO inside
a level), which is price-time priority. -/
theorem price_time_priority (o : Order) (b : OrderBook) (out : ProcOut)
    (hwf : bookWF b) (h : processOrder o b = Except.ok out) :
    out.result.trades.map (tradeMakerId o.side)
      = ((flatOrders (if o.side = 1 then b.asks else b.bids)).map Order.id).take
          out.result.trades.length ∧
    sortedBy (if o.side = 1 then askBefore else bidBefore)
      ((if o.side = 1 then b.asks else b.bids).map PriceLevel.price) = true := by
  constructor
  · obtain ⟨k, hpairs⟩ := processOrder_trades_pairs o b out hwf h
    have h2 := congrArg (List.map Prod.snd) hpairs
    rw [List.map_map, List.map_map] at h2
    rw [show (Prod.snd ∘ fun t : Trade => (t.price, tradeMakerId o.side t))
      = tradeMakerId o.side from rfl] at h2
    rw [show (Prod.snd ∘ fun q : ℚ × Order => (q.1, q.2.id))
      = (fun q : ℚ × Order => q.2.id) from rfl] at h2
    have hfull : (flatPairs (if o.side = 1 then b.asks else b.bids)).map
        (fun q : ℚ × Order => q.2.id)
        = (flatOrders (if o.side = 1 then b.asks else b.bids)).map Order.id := by
      rw [show (fun q : ℚ × Order => q.2.id) = (Order.id ∘ Prod.snd) from rfl,
        ← List.map_map, flatPairs_snd]
    have h3 : ((flatPairs (if o.side = 1 then b.asks else b.bids)).take k).map
        (fun q : ℚ × Order => q.2.id)
        = ((flatOrders (if o.side = 1 then b.asks else b.bids)).map Order.id).take k := by
      rw [List.map_take, hfull]
    rw [h3] at h2
    have hlen : out.result.trades.length
        = (((flatOrders (if o.side = 1 then b.asks else b.bids)).map Order.id).take k).length := by
      have := congrArg List.length h2
      simpa using this
    rw [h2, hlen, take_length_take]
  · by_cases hside : o.side = 1
    · rw [if_pos hside, if_pos hside]
      exact hwf.2.2.2.2.2.2.2
    · rw [if_neg hside, if_neg hside]
      exact hwf.2.2.2.2.2.2.1

theorem updateCurrentOrder_book_spec (o : Order) (r : ℚ) (bk : OrderBook)
    (ts : List Trade) (us fs : List Order) :
    (r = 0 ∧ (updateCurrentOrder o r bk ts us fs).book = bk) ∨
    (r ≠ 0 ∧ ∃ o' : Order, o'.side = o.side ∧ o'.price = o.price ∧
      (updateCurrentOrder o r bk ts us fs).book = bk.addOrder o') := by
  simp only [updateCurrentOrder]
  by_cases h1 : r = 0
  · left
    rw [if_pos h1]
    exact ⟨h1, rfl⟩
  · right
    refine ⟨h1, ?_⟩
    rw [if_neg h1]
    by_cases h2 : r < o.amount
    · rw [if_pos h2]
      exact ⟨{ o with status := 2, filledAmount := o.amount - r, amount := r }, rfl, rfl, rfl⟩
    · rw [if_neg h2]
      exact ⟨{ o with status := 1 }, rfl, rfl, rfl⟩

theorem nonempty_of_mem_price {ladder : List PriceLevel} {p : ℚ}
    (h : p ∈ ladder.map PriceLevel.price) : ∃ a0 rest0, ladder = a0 :: rest0 := by
  cases ladder with
  | nil => simp at h
  | cons a t => exact ⟨a, t, rfl⟩

/-- C8: a `ProcessOrder` call on a well-formed, uncrossed book leaves the
book uncrossed — whenever both sides are non-empty afterwards, the best
bid price is strictly below the best ask price. -/
theorem no_self_cross (o : Order) (b : OrderBook) (out : ProcOut)
    (hwf : bookWF b) (hun : uncrossed b) (hamt : 0 < o.amount)
    (h : processOrder o b = Except.ok out) : uncrossed out.book := by
  rcases processOrder_types h with ht | ht
  · have hdef := processOrder_limit h ht
    by_cases hside : o.side = 1
    · -- limit buy: walks asks, may insert a bid at o.price
      rw [processLimitOrder_buy o b hside] at hdef
      obtain ⟨k, newT, newU, newF, j, c1, c2, c3, c4, c5, c6, c7, c8, c9, c10⟩ :=
        matchLoop_walk o true (fun p => decide (p ≤ o.price)) (totalOrders b.asks + 1)
          o.amount b.asks [] [] [] _ rfl (Nat.lt_succ_self _) hwf.2.1 hwf.2.2.2.2.2.1
      have hr0 : 0 ≤ (matchLoop o true (fun p => decide (p ≤ o.price))
          (totalOrders b.asks + 1) o.amount b.asks [] [] []).r := c6 (le_of_lt hamt)
      have hdropA : ∀ {al : PriceLevel},
          (matchLoop o true (fun p => decide (p ≤ o.price))
            (totalOrders b.asks + 1) o.amount b.asks [] [] []).ladder.head? = some al →
          ∃ a0 rest0, b.asks = a0 :: rest0 ∧ a0.price ≤ al.price := by
        intro al hal
        have h1 : ((matchLoop o true (fun p => decide (p ≤ o.price))
            (totalOrders b.asks + 1) o.amount b.asks [] [] []).ladder.map
            PriceLevel.price).head? = some al.price := by
          rw [List.head?_map, hal]
          rfl
        rw [c7] at h1
        have halp := head?_of_mem_self h1
        obtain ⟨a0, rest0, hA⟩ := nonempty_of_mem_price (List.mem_of_mem_drop halp)
        refine ⟨a0, rest0, hA, ?_⟩
        refine sorted_asks_head_le hwf.2.2.2.2.2.2.2 ?_ halp
        rw [hA]
        rfl
      rcases updateCurrentOrder_book_spec o
          (matchLoop o true (fun p => decide (p ≤ o.price))
            (totalOrders b.asks + 1) o.amount b.asks [] [] []).r
          ({ b with asks := (matchLoop o true (fun p => decide (p ≤ o.price))
            (totalOrders b.asks + 1) o.amount b.asks [] [] []).ladder })
          _ _ _ with ⟨hz, hbk⟩ | ⟨hnz, o', hos, hop, hbk⟩
      · intro bl al hbl hal
        rw [← hdef, hbk] at hbl hal
        obtain ⟨a0, rest0, hA, hle⟩ := hdropA hal
        have hlt := hun bl a0 hbl (by rw [hA]; rfl)
        linarith
      · intro bl al hbl hal
        have hbook : out.book = OrderBook.mk
            (addToLadder bidBefore b.bids o')
            (matchLoop o true (fun p => decide (p ≤ o.price))
              (totalOrders b.asks + 1) o.amount b.asks [] [] []).ladder := by
          rw [← hdef, hbk]
          simp [OrderBook.addOrder, hos, hside]
        rw [hbook] at hbl hal
        rcases c10 (lt_of_le_of_ne hr0 (Ne.symm hnz)) with hnil | ⟨lvl, rest, heq, hgf⟩
        · rw [hnil] at hal
          simp at hal
        · rw [heq] at hal
          have hal' : lvl = al := by simpa using hal
          have hlt1 : o.price < al.price := by
            rw [← hal']
            exact not_le.mp (of_decide_eq_false hgf)
          obtain ⟨a0, rest0, hA, hle⟩ := @hdropA al (by rw [heq, List.head?_cons, hal'])
          rcases addToLadder_bid_head b.bids o' with ⟨hl, hheads, hcase⟩
          have hbl' : hl = bl := by
            rw [hheads] at hbl
            simpa using hbl
          rcases hcase with ⟨hbnil, hpr⟩ | ⟨h0, hh0, hpr⟩
          · rw [← hbl', hpr, hop]
            exact hlt1
          · have hlt2 : h0.price < a0.price := hun h0 a0 hh0 (by rw [hA]; rfl)
            rw [← hbl', hpr, hop]
            exact max_lt hlt1 (lt_of_lt_of_le hlt2 hle)
    · -- limit sell: walks bids, may insert an ask at o.price
      rw [processLimitOrder_sell o b hside] at hdef
      obtain ⟨k, newT, newU, newF, j, c1, c2, c3, c4, c5, c6, c7, c8, c9, c10⟩ :=
        matchLoop_walk o false (fun p => decide (o.price ≤ p)) (totalOrders b.bids + 1)
          o.amount b.bids [] [] [] _ rfl (Nat.lt_succ_self _) hwf.1 hwf.2.2.2.2.1
      have hr0 : 0 ≤ (matchLoop o false (fun p => decide (o.price ≤ p))
          (totalOrders b.bids + 1) o.amount b.bids [] [] []).r := c6 (le_of_lt hamt)
      have hdropB : ∀ {bl : PriceLevel},
          (matchLoop o false (fun p => decide (o.price ≤ p))
            (totalOrders b.bids + 1) o.amount b.bids [] [] []).ladder.head? = some bl →
          ∃ b0 rest0, b.bids = b0 :: rest0 ∧ bl.price ≤ b0.price := by
        intro bl hbl
        have h1 : ((matchLoop o false (fun p => decide (o.price ≤ p))
            (totalOrders b.bids + 1) o.amount b.bids [] [] []).ladder.map
            PriceLevel.price).head? = some bl.price := by
          rw [List.head?_map, hbl]
          rfl
        rw [c7] at h1
        have hblp := head?_of_mem_self h1
        obtain ⟨b0, rest0, hB⟩ := nonempty_of_mem_price (List.mem_of_mem_drop hblp)
        refine ⟨b0, rest0, hB, ?_⟩
        refine sorted_bids_head_ge hwf.2.2.2.2.2.2.1 ?_ hblp
        rw [hB]
        rfl
      rcases updateCurrentOrder_book_spec o
          (matchLoop o false (fun p => decide (o.price ≤ p))
            (totalOrders b.bids + 1) o.amount b.bids [] [] []).r
          ({ b with bids := (matchLoop o false (fun p => decide (o.price ≤ p))
            (totalOrders b.bids + 1) o.amount b.bids [] [] []).ladder })
          _ _ _ with ⟨hz, hbk⟩ | ⟨hnz, o', hos, hop, hbk⟩
      · intro bl al hbl hal
        rw [← hdef, hbk] at hbl hal
        obtain ⟨b0, rest0, hB, hle⟩ := hdropB hbl
        have hlt := hun b0 al (by rw [hB]; rfl) hal
        linarith
      · intro bl al hbl hal
        have hoside : ¬ o'.side = 1 := by rw [hos]; exact hside
        have hbook : out.book = OrderBook.mk
            (matchLoop o false (fun p => decide (o.price ≤ p))
              (totalOrders b.bids + 1) o.amount b.bids [] [] []).ladder
            (addToLadder askBefore b.asks o') := by
          rw [← hdef, hbk]
          simp [OrderBook.addOrder, hoside]
        rw [hbook] at hbl hal
        rcases c10 (lt_of_le_of_ne hr0 (Ne.symm hnz)) with hnil | ⟨lvl, rest, heq, hgf⟩
        · rw [hnil] at hbl
          simp at hbl
        · rw [heq] at hbl
          have hbl' : lvl = bl := by simpa using hbl
          have hlt1 : bl.price < o.price := by
            rw [← hbl']
            exact not_le.mp (of_decide_eq_false hgf)
          obtain ⟨b0, rest0, hB, hle⟩ := @hdropB bl (by rw [heq, List.head?_cons, hbl'])
          rcases addToLadder_ask_head b.asks o' with ⟨hl, hheads, hcase⟩
          have hal' : hl = al := by
            rw [hheads] at hal
            simpa using hal
          rcases hcase with ⟨hanil, hpr⟩ | ⟨a0, ha0, hpr⟩
          · rw [← hal', hpr, hop]
            exact hlt1
          · have hlt2 : b0.price < a0.price := hun b0 a0 (by rw [hB]; rfl) ha0
            rw [← hal', hpr, hop]
            exact lt_min hlt1 (lt_of_le_of_lt hle hlt2)
  · have ht1 : ¬ o.otype = 1 := by rw [ht]; decide
    have hdef := processOrder_market h ht ht1
    by_cases hside : o.side = 1
    · -- market buy: asks shrink from the front, bids untouched
      rw [processMarketOrder_buy o b hside] at hdef
      obtain ⟨k, newT, newU, newF, j, c1, c2, c3, c4, c5, c6, c7, c8, c9, c10⟩ :=
        matchLoop_walk o true (fun _ => true) (totalOrders b.asks + 1)
          o.amount b.asks [] [] [] _ rfl (Nat.lt_succ_self _) hwf.2.1 hwf.2.2.2.2.2.1
      have hbook : out.book = { b with asks := (matchLoop o true (fun _ => true)
          (totalOrders b.asks + 1) o.amount b.asks [] [] []).ladder } := by
        rw [← hdef]
        split_ifs <;> rfl
      intro bl al hbl hal
      rw [hbook] at hbl hal
      have h1 : ((matchLoop o true (fun _ => true)
          (totalOrders b.asks + 1) o.amount b.asks [] [] []).ladder.map
          PriceLevel.price).head? = some al.price := by
        rw [List.head?_map, hal]
        rfl
      rw [c7] at h1
      have halp := head?_of_mem_self h1
      obtain ⟨a0, rest0, hA⟩ := nonempty_of_mem_price (List.mem_of_mem_drop halp)
      have hle : a0.price ≤ al.price := by
        refine sorted_asks_head_le hwf.2.2.2.2.2.2.2 ?_ halp
        rw [hA]
        rfl
      have hlt := hun bl a0 hbl (by rw [hA]; rfl)
      linarith
    · -- market sell: bids shrink from the front, asks untouched
      rw [processMarketOrder_sell o b hside] at hdef
      obtain ⟨k, newT, newU, newF, j, c1, c2, c3, c4, c5, c6, c7, c8, c9, c10⟩ :=
        matchLoop_walk o false (fun _ => true) (totalOrders b.bids + 1)
          o.amount b.bids [] [] [] _ rfl (Nat.lt_succ_self _) hwf.1 hwf.2.2.2.2.1
      have hbook : out.book = { b with bids := (matchLoop o false (fun _ => true)
          (totalOrders b.bids + 1) o.amount b.bids [] [] []).ladder } := by
        rw [← hdef]
        split_ifs <;> rfl
      intro bl al hbl hal
      rw [hbook] at hbl hal
      have h1 : ((matchLoop o false (fun _ => true)
          (totalOrders b.bids + 1) o.amount b.bids [] [] []).ladder.map
          PriceLevel.price).head? = some bl.price := by
        rw [List.head?_map, hbl]
        rfl
      rw [c7] at h1
      have hblp := head?_of_mem_self h1
      obtain ⟨b0, rest0, hB⟩ := nonempty_of_mem_price (List.mem_of_mem_drop hblp)
      have hle : bl.price ≤ b0.price := by
        refine sorted_bids_head_ge hwf.2.2.2.2.2.2.1 ?_ hblp
        rw [hB]
        rfl
      have hlt := hun b0 al (by rw [hB]; rfl) hal
      linarith

theorem mem_lists_aux {α : Type} {o' o3 : α} {U F NU NF : List α}
    (hU : U = [] ++ NU) (hF : F = [] ++ NF) :
    (o' ∈ (U ++ [o3]) ++ (F ++ [o3]) → o' ∈ NU ++ NF ∨ o' = o3) ∧
    (o' ∈ (U ++ [o3]) ++ F → o' ∈ NU ++ NF ∨ o' = o3) ∧
    (o' ∈ U ++ F → o' ∈ NU ++ NF) := by
  subst hU
  subst hF
  refine ⟨?_, ?_, ?_⟩ <;> intro h <;> simp only [List.nil_append, List.mem_append,
    List.mem_singleton] at h ⊢ <;> tauto

theorem updateCurrentOrder_order_spec (o : Order) (r : ℚ) (bk : OrderBook)
    (ts : List Trade) (us fs : List Order) :
    (updateCurrentOrder o r bk ts us fs).order.id = o.id ∧
    ((r = 0 ∧ (updateCurrentOrder o r bk ts us fs).order.filledAmount = o.amount) ∨
     (r ≠ 0 ∧ r < o.amount ∧
       (updateCurrentOrder o r bk ts us fs).order.filledAmount = o.amount - r) ∨
     (r ≠ 0 ∧ ¬ r < o.amount ∧
       (updateCurrentOrder o r bk ts us fs).order.filledAmount = o.filledAmount)) := by
  simp only [updateCurrentOrder]
  by_cases h1 : r = 0
  · rw [if_pos h1]
    exact ⟨rfl, Or.inl ⟨h1, rfl⟩⟩
  · rw [if_neg h1]
    by_cases h2 : r < o.amount
    · rw [if_pos h2]
      exact ⟨rfl, Or.inr (Or.inl ⟨h1, h2, rfl⟩)⟩
    · rw [if_neg h2]
      exact ⟨rfl, Or.inr (Or.inr ⟨h1, h2, rfl⟩)⟩

theorem updateCurrentOrder_lists_spec (o : Order) (r : ℚ) (bk : OrderBook)
    (ts : List Trade) (us fs : List Order) :
    ∃ extraU extraF : List Order,
      (∀ e ∈ extraU, e.id = o.id) ∧ (∀ e ∈ extraF, e.id = o.id) ∧
      (updateCurrentOrder o r bk ts us fs).result.updatedOrders = us ++ extraU ∧
      (updateCurrentOrder o r bk ts us fs).result.filledOrders = fs ++ extraF := by
  simp only [updateCurrentOrder]
  by_cases h1 : r = 0
  · rw [if_pos h1]
    exact ⟨[], [{ o with status := 3, filledAmount := o.amount }],
      by simp, by simp, by simp, rfl⟩
  · rw [if_neg h1]
    by_cases h2 : r < o.amount
    · rw [if_pos h2]
      exact ⟨[{ o with status := 2, filledAmount := o.amount - r, amount := r }], [],
        by simp, by simp, rfl, by simp⟩
    · rw [if_neg h2]
      exact ⟨[{ o with status := 1 }], [], by simp, by simp, rfl, by simp⟩

/-- C6 (amended): within one `ProcessOrder` call, starting from a
well-formed book whose resting orders all satisfy
`0 ≤ filled_amount ≤ amount` and a freshly created taker
(`filled_amount = 0`, `amount ≥ 0`): the taker's filled amount only grows
and ends within `[0, amount]` measured against the *submitted* amount, and
every maker's filled amount only grows and ends within `[0, amount]`
measured against the maker's *pre-call* amount.  (The bound against the
stored `Amount` field does not survive the call, because partial fills
overwrite `Amount` with the remainder.) -/
theorem filled_amount_bounds (o : Order) (b : OrderBook) (out : ProcOut)
    (hwf : bookWF b)
    (hpos : ∀ q ∈ flatPairs (if o.side = 1 then b.asks else b.bids),
      0 ≤ q.2.filledAmount ∧ q.2.filledAmount ≤ q.2.amount)
    (hf0 : o.filledAmount = 0) (ha : 0 ≤ o.amount)
    (h : processOrder o b = Except.ok out) :
    (o.filledAmount ≤ out.order.filledAmount ∧ 0 ≤ out.order.filledAmount ∧
      out.order.filledAmount ≤ o.amount) ∧
    (∀ o' ∈ out.result.updatedOrders ++ out.result.filledOrders, o'.id ≠ o.id →
      ∃ q ∈ flatPairs (if o.side = 1 then b.asks else b.bids),
        q.2.id = o'.id ∧ q.2.filledAmount ≤ o'.filledAmount ∧
        0 ≤ o'.filledAmount ∧ o'.filledAmount ≤ q.2.amount) := by
  rcases processOrder_types h with ht | ht
  · have hdef := processOrder_limit h ht
    by_cases hside : o.side = 1
    · rw [processLimitOrder_buy o b hside] at hdef
      rw [if_pos hside] at hpos ⊢
      obtain ⟨k, newT, newU0, newF0, j, c1, c2, c3, c4, c5, c6, c7, c8, c9, c10⟩ :=
        matchLoop_walk o true (fun p => decide (p ≤ o.price)) (totalOrders b.asks + 1)
          o.amount b.asks [] [] [] _ rfl (Nat.lt_succ_self _) hwf.2.1 hwf.2.2.2.2.2.1
      obtain ⟨newU, newF, b1, b2, b3, b4⟩ :=
        matchLoop_bounds o true (fun p => decide (p ≤ o.price)) (totalOrders b.asks + 1)
          o.amount b.asks [] [] [] _ rfl (Nat.lt_succ_self _) hwf.2.1 hwf.2.2.2.2.2.1
          hpos ha
      have hr0 := c6 ha
      obtain ⟨hid, hcases⟩ := updateCurrentOrder_order_spec o
        (matchLoop o true (fun p => decide (p ≤ o.price))
          (totalOrders b.asks + 1) o.amount b.asks [] [] []).r
        ({ b with asks := (matchLoop o true (fun p => decide (p ≤ o.price))
          (totalOrders b.asks + 1) o.amount b.asks [] [] []).ladder }) _ _ _
      obtain ⟨extraU, extraF, e1, e2, e3, e4⟩ := updateCurrentOrder_lists_spec o
        (matchLoop o true (fun p => decide (p ≤ o.price))
          (totalOrders b.asks + 1) o.amount b.asks [] [] []).r
        ({ b with asks := (matchLoop o true (fun p => decide (p ≤ o.price))
          (totalOrders b.asks + 1) o.amount b.asks [] [] []).ladder }) _ _ _
      rw [hdef] at hid hcases e3 e4
      constructor
      · rw [hf0]
        rcases hcases with ⟨hz, hfv⟩ | ⟨hnz, hlt, hfv⟩ | ⟨hnz, hge, hfv⟩
        · rw [hfv]; exact ⟨ha, ha, le_refl _⟩
        · rw [hfv]; refine ⟨by linarith, by linarith, by linarith⟩
        · rw [hfv, hf0]; exact ⟨le_refl _, le_refl _, ha⟩
      · intro o' ho' hne
        rw [e3, e4, b1, b2] at ho'
        simp only [List.nil_append, List.mem_append] at ho'
        rcases ho' with (hu | hu) | (hf | hf)
        · exact b4 o' (List.mem_append_left _ hu)
        · exact absurd (e1 o' hu) hne
        · exact b4 o' (List.mem_append_right _ hf)
        · exact absurd (e2 o' hf) hne
    · rw [processLimitOrder_sell o b hside] at hdef
      rw [if_neg hside] at hpos ⊢
      obtain ⟨k, newT, newU0, newF0, j, c1, c2, c3, c4, c5, c6, c7, c8, c9, c10⟩ :=
        matchLoop_walk o false (fun p => decide (o.price ≤ p)) (totalOrders b.bids + 1)
          o.amount b.bids [] [] [] _ rfl (Nat.lt_succ_self _) hwf.1 hwf.2.2.2.2.1
      obtain ⟨newU, newF, b1, b2, b3, b4⟩ :=
        matchLoop_bounds o false (fun p => decide (o.price ≤ p)) (totalOrders b.bids + 1)
          o.amount b.bids [] [] [] _ rfl (Nat.lt_succ_self _) hwf.1 hwf.2.2.2.2.1
          hpos ha
      have hr0 := c6 ha
      obtain ⟨hid, hcases⟩ := updateCurrentOrder_order_spec o
        (matchLoop o false (fun p => decide (o.price ≤ p))
          (totalOrders b.bids + 1) o.amount b.bids [] [] []).r
        ({ b with bids := (matchLoop o false (fun p => decide (o.price ≤ p))
          (totalOrders b.bids + 1) o.amount b.bids [] [] []).ladder }) _ _ _
      obtain ⟨extraU, extraF, e1, e2, e3, e4⟩ := updateCurrentOrder_lists_spec o
        (matchLoop o false (fun p => decide (o.price ≤ p))
          (totalOrders b.bids + 1) o.amount b.bids [] [] []).r
        ({ b with bids := (matchLoop o false (fun p => decide (o.price ≤ p))
          (totalOrders b.bids + 1) o.amount b.bids [] [] []).ladder }) _ _ _
      rw [hdef] at hid hcases e3 e4
      constructor
      · rw [hf0]
        rcases hcases with ⟨hz, hfv⟩ | ⟨hnz, hlt, hfv⟩ | ⟨hnz, hge, hfv⟩
        · rw [hfv]; exact ⟨ha, ha, le_refl _⟩
        · rw [hfv]; refine ⟨by linarith, by linarith, by linarith⟩
        · rw [hfv, hf0]; exact ⟨le_refl _, le_refl _, ha⟩
      · intro o' ho' hne
        rw [e3, e4, b1, b2] at ho'
        simp only [List.nil_append, List.mem_append] at ho'
        rcases ho' with (hu | hu) | (hf | hf)
        · exact b4 o' (List.mem_append_left _ hu)
        · exact absurd (e1 o' hu) hne
        · exact b4 o' (List.mem_append_right _ hf)
        · exact absurd (e2 o' hf) hne
  · have ht1 : ¬ o.otype = 1 := by rw [ht]; decide
    have hdef := processOrder_market h ht ht1
    by_cases hside : o.side = 1
    · rw [processMarketOrder_buy o b hside] at hdef
      rw [if_pos hside] at hpos ⊢
      obtain ⟨k, newT, newU0, newF0, j, c1, c2, c3, c4, c5, c6, c7, c8, c9, c10⟩ :=
        matchLoop_walk o true (fun _ => true) (totalOrders b.asks + 1)
          o.amount b.asks [] [] [] _ rfl (Nat.lt_succ_self _) hwf.2.1 hwf.2.2.2.2.2.1
      obtain ⟨newU, newF, b1, b2, b3, b4⟩ :=
        matchLoop_bounds o true (fun _ => true) (totalOrders b.asks + 1)
          o.amount b.asks [] [] [] _ rfl (Nat.lt_succ_self _) hwf.2.1 hwf.2.2.2.2.2.1
          hpos ha
      have hr0 := c6 ha
      by_cases hlt : (matchLoop o true (fun _ => true)
          (totalOrders b.asks + 1) o.amount b.asks [] [] []).r < o.amount
      · rw [if_pos hlt] at hdef
        by_cases hz : (matchLoop o true (fun _ => true)
            (totalOrders b.asks + 1) o.amount b.asks [] [] []).r = 0
        · rw [if_pos hz] at hdef
          constructor
          · rw [← hdef]
            simp only [hf0]
            refine ⟨by linarith, by linarith, by linarith⟩
          · intro o' ho' hne
            rw [← hdef] at ho'
            rcases (mem_lists_aux b1 b2).1 ho' with hmem | heq
            · exact b4 o' hmem
            · exact absurd (by rw [heq]) hne
        · rw [if_neg hz] at hdef
          constructor
          · rw [← hdef]
            simp only [hf0]
            refine ⟨by linarith, by linarith, by linarith⟩
          · intro o' ho' hne
            rw [← hdef] at ho'
            rcases (mem_lists_aux b1 b2).2.1 ho' with hmem | heq
            · exact b4 o' hmem
            · exact absurd (by rw [heq]) hne
      · rw [if_neg hlt] at hdef
        constructor
        · rw [← hdef]
          rw [hf0]
          exact ⟨le_refl _, le_refl _, ha⟩
        · intro o' ho' hne
          rw [← hdef] at ho'
          exact b4 o' ((@mem_lists_aux _ _ o _ _ _ _ b1 b2).2.2 ho')
    · rw [processMarketOrder_sell o b hside] at hdef
      rw [if_neg hside] at hpos ⊢
      obtain ⟨k, newT, newU0, newF0, j, c1, c2, c3, c4, c5, c6, c7, c8, c9, c10⟩ :=
        matchLoop_walk o false (fun _ => true) (totalOrders b.bids + 1)
          o.amount b.bids [] [] [] _ rfl (Nat.lt_succ_self _) hwf.1 hwf.2.2.2.2.1
      obtain ⟨newU, newF, b1, b2, b3, b4⟩ :=
        matchLoop_bounds o false (fun _ => true) (totalOrders b.bids + 1)
          o.amount b.bids [] [] [] _ rfl (Nat.lt_succ_self _) hwf.1 hwf.2.2.2.2.1
          hpos ha
      have hr0 := c6 ha
      by_cases hlt : (matchLoop o false (fun _ => true)
          (totalOrders b.bids + 1) o.amount b.bids [] [] []).r < o.amount
      · rw [if_pos hlt] at hdef
        by_cases hz : (matchLoop o false (fun _ => true)
            (totalOrders b.bids + 1) o.amount b.bids [] [] []).r = 0
        · rw [if_pos hz] at hdef
          constructor
          · rw [← hdef]
            simp only [hf0]
            refine ⟨by linarith, by linarith, by linarith⟩
          · intro o' ho' hne
            rw [← hdef] at ho'
            rcases (mem_lists_aux b1 b2).1 ho' with hmem | heq
            · exact b4 o' hmem
            · exact absurd (by rw [heq]) hne
        · rw [if_neg hz] at hdef
          constructor
          · rw [← hdef]
            simp only [hf0]
            refine ⟨by linarith, by linarith, by linarith⟩
          · intro o' ho' hne
            rw [← hdef] at ho'
            rcases (mem_lists_aux b1 b2).2.1 ho' with hmem | heq
            · exact b4 o' hmem
            · exact absurd (by rw [heq]) hne
      · rw [if_neg hlt] at hdef
        constructor
        · rw [← hdef]
          rw [hf0]
          exact ⟨le_refl _, le_refl _, ha⟩
        · intro o' ho' hne
          rw [← hdef] at ho'
          exact b4 o' ((@mem_lists_aux _ _ o _ _ _ _ b1 b2).2.2 ho')

theorem trade_price_is_maker_price_witness :
    ∃ mkr ∈ flatOrders (if sampleLimitBuy.side = 1 then sampleBook.asks else sampleBook.bids),
      mkr.id = tradeMakerId sampleLimitBuy.side sampleLimitTrade ∧
      sampleLimitTrade.price = mkr.price :=
  trade_price_is_maker_price sampleLimitBuy sampleBook sampleLimitOut (by decide) (by decide)
    sampleLimitTrade (by decide)

theorem price_time_priority_witness :
    sampleLimitOut.result.trades.map (tradeMakerId sampleLimitBuy.side)
      = ((flatOrders (if sampleLimitBuy.side = 1 then sampleBook.asks
            else sampleBook.bids)).map Order.id).take
          sampleLimitOut.result.trades.length ∧
    sortedBy (if sampleLimitBuy.side = 1 then askBefore else bidBefore)
      ((if sampleLimitBuy.side = 1 then sampleBook.asks else sampleBook.bids).map
        PriceLevel.price) = true :=
  price_time_priority sampleLimitBuy sampleBook sampleLimitOut (by decide) (by decide)

theorem no_self_cross_witness : uncrossed sampleLimitOut.book :=
  no_self_cross sampleLimitBuy sampleBook sampleLimitOut (by decide) (by decide) (by decide)
    (by decide)

theorem filled_amount_bounds_witness :
    sampleLimitBuy.filledAmount ≤ sampleLimitOut.order.filledAmount ∧
    0 ≤ sampleLimitOut.order.filledAmount ∧
    sampleLimitOut.order.filledAmount ≤ sampleLimitBuy.amount :=
  (filled_amount_bounds sampleLimitBuy sampleBook sampleLimitOut (by decide) (by decide)
    (by decide) (by decide) (by decide)).1

/-- C6 counterexample to the literal claim: a partial fill overwrites the
stored `Amount` with the remainder, so `filled_amount ≤ amount` fails
against the stored field — the taker of `sampleBuyTen` against
`sampleBookSeven` ends with `FilledAmount = 7` but `Amount = 3`. -/
theorem filled_amount_bounds_cex :
    processOrder sampleBuyTen sampleBookSeven = Except.ok sampleTenOut ∧
    sampleTenOut.order.filledAmount = 7 ∧ sampleTenOut.order.amount = 3 ∧
    ¬ sampleTenOut.order.filledAmount ≤ sampleTenOut.order.amount := by decide

/-- C10: whenever `ProcessOrder` leaves an order partially filled, the
order's `Amount` field is overwritten with the remaining quantity while
`FilledAmount` accumulates the consumed part, so the stored `Amount` no
longer equals the submitted quantity: `updateCurrentOrder` does it to a
limit taker that rests partially filled (branch `remaining < amount`),
and `updateMatchedOrder` (through `PriceLevel.UpdateOrderAmount`, which
mutates the shared pointer) does it to a partially consumed maker. -/
theorem amount_overwritten_on_partial_fill
    (o : Order) (r : ℚ) (bk : OrderBook) (ts : List Trade) (us fs : List Order)
    (m : Order) (x : ℚ) (ladder : List PriceLevel)
    (h0 : 0 < r) (hr : r < o.amount)
    (hm : m.filledAmount + x < m.amount) (hx : 0 < m.filledAmount + x) :
    ((updateCurrentOrder o r bk ts us fs).order.amount = r ∧
     (updateCurrentOrder o r bk ts us fs).order.filledAmount = o.amount - r ∧
     (updateCurrentOrder o r bk ts us fs).order.amount ≠ o.amount) ∧
    ((updateMatchedOrder m x ladder).1.amount = m.amount - (m.filledAmount + x) ∧
     (updateMatchedOrder m x ladder).1.filledAmount = m.filledAmount + x ∧
     (updateMatchedOrder m x ladder).1.amount ≠ m.amount) := by
  constructor
  · simp only [updateCurrentOrder]
    rw [if_neg (ne_of_gt h0), if_pos hr]
    exact ⟨rfl, rfl, ne_of_lt hr⟩
  · simp only [updateMatchedOrder]
    rw [if_neg (not_le.mpr hm)]
    refine ⟨rfl, rfl, ?_⟩
    intro he
    exact absurd (sub_eq_self.mp he) (ne_of_gt hx)

theorem amount_overwritten_witness :
    ((updateCurrentOrder sampleBuyTen 3 emptyBook [] [] []).order.amount = 3 ∧
     (updateCurrentOrder sampleBuyTen 3 emptyBook [] [] []).order.filledAmount
       = sampleBuyTen.amount - 3 ∧
     (updateCurrentOrder sampleBuyTen 3 emptyBook [] [] []).order.amount
       ≠ sampleBuyTen.amount) ∧
    ((updateMatchedOrder sampleSellSeven 2 [⟨50000, [sampleSellSeven], 7⟩]).1.amount
       = sampleSellSeven.amount - (sampleSellSeven.filledAmount + 2) ∧
     (updateMatchedOrder sampleSellSeven 2 [⟨50000, [sampleSellSeven], 7⟩]).1.filledAmount
       = sampleSellSeven.filledAmount + 2 ∧
     (updateMatchedOrder sampleSellSeven 2 [⟨50000, [sampleSellSeven], 7⟩]).1.amount
       ≠ sampleSellSeven.amount) :=
  amount_overwritten_on_partial_fill sampleBuyTen 3 emptyBook [] [] []
    sampleSellSeven 2 [⟨50000, [sampleSellSeven], 7⟩]
    (by decide) (by decide) (by decide) (by decide)

/-- C4 (code bug): a market order that matches nothing at all keeps
status 1 (Pending) instead of becoming Canceled — `processMarketOrder`
only writes a status inside its `remaining < orderAmount` branch, so when
nothing matched the order is returned untouched and appears in no result
list, contradicting the cancellation announced for that case (orderbook.go
line 442).  A market sell on the empty book evaluates to exactly that. -/
theorem market_no_match_keeps_pending :
    processOrder sampleMarketSell emptyBook
      = Except.ok ⟨sampleMarketSell, emptyBook, ⟨[], [], []⟩⟩ ∧
    sampleMarketSell.status = 1 ∧ ¬ sampleMarketSell.status = 4 := by decide

/-- C5 (code bug): the market-buy matching loop decrements the remaining
quantity by the base quantity `x` of each trade, not by `x * maker.price`:
on the two-level ask book, the market buy with `Amount = 1` strikes trades
whose *base* amounts sum to 1 across prices 50000 and 50500 — a quote
spend of 50250 — while `calculateFreezeAmount` freezes exactly
`Amount = 1` of the quote currency for such an order (createorderlogic.go
line 234 reads a market buy's `Amount` as quote spend).  The engine and
the lifecycle service disagree on the unit of `Amount`. -/
theorem market_buy_units_mismatch :
    processOrder sampleMarketBuy sampleBook = Except.ok sampleMarketOut ∧
    sampleMarketOut.result.trades.map Trade.amount = [(1 : ℚ)/2, (1 : ℚ)/2] ∧
    sampleMarketOut.result.trades.map Trade.price = [50000, 50500] ∧
    (sampleMarketOut.result.trades.map Trade.amount).sum = sampleMarketBuy.amount ∧
    ¬ (sampleMarketOut.result.trades.map (fun t => t.price * t.amount)).sum
        ≤ sampleMarketBuy.amount ∧
    calculateFreezeAmount 2 1 sampleMarketBuy.amount sampleMarketBuy.price samplePair
      = (samplePair.quoteCurrency, sampleMarketBuy.amount) := by decide

/-- C9: cancelling an order already in a terminal status fails fast with
the matching error — `OrderAlreadyCanceled` for status 4,
`OrderAlreadyFilled` for status 3 — and the returned state is the input
state itself: no order, balance, pair or book component changes. -/
theorem cancel_terminal_status_rejected (st : ExchState) (uid oid : ℕ) (o : Order)
    (hfind : st.orders.find? (fun x => x.id == oid) = some o)
    (howner : o.userId = uid) :
    (o.status = 4 → cancelOrder st uid oid = (Except.error "OrderAlreadyCanceled", st)) ∧
    (o.status = 3 → cancelOrder st uid oid = (Except.error "OrderAlreadyFilled", st)) := by
  constructor <;> intro hs <;> simp [cancelOrder, hfind, howner, hs]

theorem cancel_terminal_status_rejected_witness :
    cancelOrder sampleTerminalState 7 1
      = (Except.error "OrderAlreadyCanceled", sampleTerminalState) ∧
    cancelOrder sampleTerminalState 7 2
      = (Except.error "OrderAlreadyFilled", sampleTerminalState) :=
  ⟨(cancel_terminal_status_rejected sampleTerminalState 7 1
      ⟨1, 7, "BTC/USDT", 1, 1, 1, 50000, 0, 4⟩ (by decide) (by decide)).1 (by decide),
   (cancel_terminal_status_rejected sampleTerminalState 7 2
      ⟨2, 7, "BTC/USDT", 1, 1, 1, 50000, 1, 3⟩ (by decide) (by decide)).2 (by decide)⟩

/-- C7 counterexample to the literal claim: cancelling the resting
pending order succeeds — status set to Canceled, residual unfrozen — yet
the in-memory book is untouched: the canceled order still rests on the
bid ladder, because `CancelOrder` never calls the matching engine. -/
theorem cancel_leaves_book_untouched :
    (cancelOrder sampleState 7 1).1 = Except.ok () ∧
    (cancelOrder sampleState 7 1).2.book = sampleState.book ∧
    samplePendingBuy ∈ flatOrders (cancelOrder sampleState 7 1).2.book.bids ∧
    (cancelOrder sampleState 7 1).2.orders.map Order.status = [4] ∧
    (cancelOrder sampleState 7 1).2.balances = [⟨7, "USDT", 50000, 0⟩] := by decide

/-- C7 (amended): successfully cancelling a Pending or PartiallyFilled
order performs, in one transaction, the status update to Canceled and the
unfreeze of the residual — `(amount − filled_amount) * price` of the
quote currency for a limit buy, `amount − filled_amount` of the base
currency for a sell — but does **not** remove the order from the
in-memory book: `CancelOrder` never touches the matching engine, so the
book component comes back unchanged and the order keeps resting. -/
theorem cancel_success_spec (st : ExchState) (uid oid : ℕ) (o : Order) (tp : TradingPair)
    (bal : BalanceRow)
    (hfind : st.orders.find? (fun x => x.id == oid) = some o)
    (howner : o.userId = uid)
    (hst : ¬ o.status = 4 ∧ ¬ o.status = 3)
    (hpair : st.pairs.find? (fun p => p.symbol == o.symbol) = some tp)
    (hbal : findBalance st.balances uid (calculateUnfreezeAmount o tp).1 = some bal)
    (hamt : 0 < (calculateUnfreezeAmount o tp).2)
    (hfroz : (calculateUnfreezeAmount o tp).2 ≤ bal.frozen) :
    cancelOrder st uid oid =
      (Except.ok (),
        ⟨st.orders.map (fun x => if x.id = o.id then { x with status := 4 } else x),
         updateBalanceRows st.balances uid (calculateUnfreezeAmount o tp).1
           (bal.available + (calculateUnfreezeAmount o tp).2)
           (bal.frozen - (calculateUnfreezeAmount o tp).2),
         st.pairs, st.book⟩) ∧
    (o.side = 1 ∧ o.otype = 1 →
      calculateUnfreezeAmount o tp
        = (tp.quoteCurrency, (o.amount - o.filledAmount) * o.price)) ∧
    (¬ o.side = 1 →
      calculateUnfreezeAmount o tp = (tp.baseCurrency, o.amount - o.filledAmount)) := by
  have hub : unfreezeBalance st.balances uid (calculateUnfreezeAmount o tp).1
      (calculateUnfreezeAmount o tp).2
      = Except.ok (updateBalanceRows st.balances uid (calculateUnfreezeAmount o tp).1
          (bal.available + (calculateUnfreezeAmount o tp).2)
          (bal.frozen - (calculateUnfreezeAmount o tp).2)) := by
    unfold unfreezeBalance
    rw [if_neg (not_le.mpr hamt), hbal]
    simp only [if_neg (not_lt.mpr hfroz)]
  have hrem : ¬ (o.amount - o.filledAmount ≤ 0) := by
    intro hle
    have hz : (calculateUnfreezeAmount o tp).2 = 0 := by
      unfold calculateUnfreezeAmount
      rw [if_pos hle]
    rw [hz] at hamt
    exact lt_irrefl 0 hamt
  refine ⟨?_, ?_, ?_⟩
  · simp only [cancelOrder, hfind]
    rw [if_neg (by simp [howner])]
    rw [if_neg hst.1, if_neg hst.2]
    simp only [hpair]
    rw [if_pos (ne_of_gt hamt), hub]
  · intro ⟨hs, ht⟩
    unfold calculateUnfreezeAmount
    rw [if_neg hrem, if_pos hs, if_pos ht]
  · intro hs
    unfold calculateUnfreezeAmount
    rw [if_neg hrem, if_neg hs]

theorem cancel_success_spec_witness :
    cancelOrder sampleState 7 1 =
      (Except.ok (),
        ⟨sampleState.orders.map
           (fun x => if x.id = samplePendingBuy.id then { x with status := 4 } else x),
         updateBalanceRows sampleState.balances 7
           (calculateUnfreezeAmount samplePendingBuy samplePair).1
           ((⟨7, "USDT", 0, 50000⟩ : BalanceRow).available
             + (calculateUnfreezeAmount samplePendingBuy samplePair).2)
           ((⟨7, "USDT", 0, 50000⟩ : BalanceRow).frozen
             - (calculateUnfreezeAmount samplePendingBuy samplePair).2),
         sampleState.pairs, sampleState.book⟩) :=
  (cancel_success_spec sampleState 7 1 samplePendingBuy samplePair ⟨7, "USDT", 0, 50000⟩
    (by decide) (by decide) (by decide) (by decide) (by decide) (by decide) (by decide)).1

/-- C1 counterexample to the literal claim: settling `sampleTrade`
(3 BTC at 2 USDT) debits the buyer's quote and the seller's base from the
**available** column and leaves every `frozen` column untouched —
`applyBalanceChange` only ever writes `available` and passes the old
`frozen` back.  The claimed outcome (buyer: 100 USDT available with the
6 frozen released to 0; seller: 5 BTC available with the 3 frozen
released to 0) differs from the actual one (buyer 94 available / 6 still
frozen, seller 2 available / 3 still frozen). -/
theorem settlement_hits_available_not_frozen :
    updateUserBalances sampleRows [sampleTrade]
      = Except.ok
          [⟨1, "USDT", 94, 6⟩, ⟨1, "BTC", 13, 0⟩, ⟨2, "BTC", 2, 3⟩, ⟨2, "USDT", 6, 0⟩] ∧
    ¬ updateUserBalances sampleRows [sampleTrade]
      = Except.ok
          [⟨1, "USDT", 100, 0⟩, ⟨1, "BTC", 13, 0⟩, ⟨2, "BTC", 5, 0⟩, ⟨2, "USDT", 6, 0⟩] := by
  decide

/-- C1 (amended): settling one trade of `a` base units at price `p`
between buyer 1 and seller 2 moves everything through the **available**
column: the buyer's quote available is debited `p*a` and base available
credited `a`; the seller's base available is debited `a` and quote
available credited `p*a`; all four `frozen` values are returned
unchanged (the frozen funds are only released by the separate
full-fill unfreeze path). -/
theorem settlement_single_trade (p a uqa uqf uba ubf sba sbf sqa sqf : ℚ)
    (hpa : ¬ p * a = 0) (ha : ¬ a = 0)
    (h1 : ¬ uqa + -(p * a) < 0) (h2 : ¬ uba + a < 0)
    (h3 : ¬ sba + -a < 0) (h4 : ¬ sqa + p * a < 0) :
    updateUserBalances
        [⟨1, "USDT", uqa, uqf⟩, ⟨1, "BTC", uba, ubf⟩, ⟨2, "BTC", sba, sbf⟩,
         ⟨2, "USDT", sqa, sqf⟩]
        [⟨"BTC/USDT", 10, 11, 1, 2, p, a⟩]
      = Except.ok
          [⟨1, "USDT", uqa + -(p * a), uqf⟩, ⟨1, "BTC", uba + a, ubf⟩,
           ⟨2, "BTC", sba + -a, sbf⟩, ⟨2, "USDT", sqa + p * a, sqf⟩] := by
  have hps : parseSymbol "BTC/USDT" = Except.ok ("BTC", "USDT") := by decide
  have hna : ¬ -(p * a) = 0 := by
    rw [neg_eq_zero]
    exact hpa
  have hnaa : ¬ -a = 0 := by
    rw [neg_eq_zero]
    exact ha
  simp only [updateUserBalances, buildBalanceChanges, hps]
  simp +decide [addBalanceChange, applyBalanceChanges, applyBalanceChange, findBalance,
    updateBalanceRows, hna, hnaa, hpa, ha, h1, h2, h3, h4]

theorem settlement_single_trade_witness :
    updateUserBalances
        [⟨1, "USDT", 100, 6⟩, ⟨1, "BTC", 10, 0⟩, ⟨2, "BTC", 5, 3⟩, ⟨2, "USDT", 0, 0⟩]
        [⟨"BTC/USDT", 10, 11, 1, 2, 2, 3⟩]
      = Except.ok
          [⟨1, "USDT", 100 + -(2 * 3), 6⟩, ⟨1, "BTC", 10 + 3, 0⟩,
           ⟨2, "BTC", 5 + -3, 3⟩, ⟨2, "USDT", 0 + 2 * 3, 0⟩] :=
  settlement_single_trade 2 3 100 6 10 0 5 3 0 0 (by decide) (by decide) (by decide)
    (by decide) (by decide) (by decide)

end Exchange
